import Mathlib

/-!
Verification development for the backend-lowering stage of the graphql-compiler
repository.  Two components are embedded:

* `compiler/cypher_query.py` — the step assembler turning a post-fold-extraction
  IR block stream into a `CypherQuery` (an ordered list of `CypherStep`s plus a
  global where-block and an output block).
* `compiler/emit_sql.py` — the SQL tree emitter collapsing a per-location query
  tree bottom-up into nested CTEs, including recursive-CTE construction.

Python control flow is embedded by explicit state passing; exceptions
(`AssertionError`, `TypeError`/`AttributeError`/`KeyError` escapes) become
`Except` errors; SQLAlchemy selectable/column objects become a symbolic AST.
-/

set_option maxHeartbeats 1000000
set_option linter.unusedVariables false
set_option linter.unnecessarySimpa false

deriving instance DecidableEq for Except

/-- IR blocks (`compiler/blocks.py`, consumed via `isinstance` dispatch in
`cypher_query.py`).  Payloads that the assembler never inspects are kept
opaque as `Nat` identifiers; locations are `Nat`. -/
inductive Block where
  | queryRoot (start_class : List String)
  | traverse (direction : String) (edge_name : String)
  | recurse (direction : String) (edge_name : String) (depth : Nat)
  | backtrack (location : Nat)
  | markLocation (location : Nat)
  | coerceType (target_class : List String)
  | filter (predicate : Nat)
  | fold (fold_scope_location : Nat)
  | unfold
  | outputSource
  | endOptional
  | globalOperationsStart
  | constructResult (fields : Nat)
  deriving DecidableEq, Repr

/-- `CypherStep` namedtuple of `cypher_query.py`. -/
structure CypherStep where
  linked_location : Option Nat
  step_block : Block
  step_types : List String
  where_block : Option Block
  as_block : Block
  deriving DecidableEq, Repr

/-- `CypherQuery` namedtuple of `cypher_query.py`.  The folds mapping is an
association list from fold-scope location to its extracted IR blocks. -/
structure CypherQuery where
  steps : List CypherStep
  folds : List (Nat × List Block)
  global_where_block : Option Block
  output_block : Block
  deriving DecidableEq, Repr

/-- Fatal assembly failures.  The Python code raises `AssertionError` for
grammar violations (the spec's `MalformedIrError`) and escapes with
`TypeError`/`IndexError` when the step buffer is absent or empty; all are
fatal aborts and are modelled as `Except` errors. -/
inductive MalformedIrError where
  | unexpectedStepBlocks
  | noCurrentStepBuffer
  | queryRootNotFirst
  | unexpectedBlock
  | noGlobalOperations
  | unexpectedGlobalOperations
  | notExactlyOneElement
  deriving DecidableEq, Repr

/-- Modelled from the spec: `get_only_element_from_collection` (from the
`helpers` module, which is not under `src/`) returns the collection's only
element and fails unless the collection has exactly one element. -/
def get_only_element_from_collection {α : Type} : List α → Except MalformedIrError α
  | [x] => .ok x
  | _ => .error .notExactlyOneElement

/-- `_get_all_supertypes_of_exact_type`: documented no-op stub returning the
singleton set of the exact type; the metadata table is not consulted. -/
def _get_all_supertypes_of_exact_type {QMT : Type} (query_metadata_table : QMT)
    (exact_type : String) : List String :=
  [exact_type]

/-- `_make_query_root_cypher_step`: reduce a step buffer opening with a
`QueryRoot` block by matching its exact block-type shape. -/
def _make_query_root_cypher_step {QMT : Type} (query_metadata_table : QMT)
    (linked_location : Option Nat) (current_step_blocks : List Block) :
    Except MalformedIrError CypherStep :=
  match current_step_blocks with
  | [Block.queryRoot sc, Block.filter p, Block.markLocation l] => do
      let exact_step_type ← get_only_element_from_collection sc
      .ok { linked_location := linked_location, step_block := Block.queryRoot sc,
            step_types := _get_all_supertypes_of_exact_type query_metadata_table exact_step_type,
            where_block := some (Block.filter p), as_block := Block.markLocation l }
  | [Block.queryRoot sc, Block.markLocation l] => do
      let exact_step_type ← get_only_element_from_collection sc
      .ok { linked_location := linked_location, step_block := Block.queryRoot sc,
            step_types := _get_all_supertypes_of_exact_type query_metadata_table exact_step_type,
            where_block := none, as_block := Block.markLocation l }
  | _ => .error .unexpectedStepBlocks

/-- The `isinstance(step_block, QueryRoot)` test of `_make_cypher_step`. -/
def Block.isQueryRoot : Block → Bool
  | Block.queryRoot _ => true
  | _ => false

/-- `_make_cypher_step`: reduce a finished step buffer to a `CypherStep`.
A `none` or empty buffer corresponds to the Python `TypeError`/`IndexError`
escape on `current_step_blocks[0]`. -/
def _make_cypher_step {QMT : Type} (query_metadata_table : QMT)
    (linked_location : Option Nat) (current_step_blocks : Option (List Block)) :
    Except MalformedIrError CypherStep :=
  match current_step_blocks with
  | none => .error .noCurrentStepBuffer
  | some [] => .error .noCurrentStepBuffer
  | some (step_block :: remaining_blocks) =>
    if step_block.isQueryRoot then
      _make_query_root_cypher_step query_metadata_table linked_location
        (step_block :: remaining_blocks)
    else
      match remaining_blocks with
      | [Block.coerceType tc, Block.filter p, Block.markLocation l] => do
          let exact_step_type ← get_only_element_from_collection tc
          .ok { linked_location := linked_location, step_block := step_block,
                step_types := _get_all_supertypes_of_exact_type query_metadata_table exact_step_type,
                where_block := some (Block.filter p), as_block := Block.markLocation l }
      | [Block.coerceType tc, Block.markLocation l] => do
          let exact_step_type ← get_only_element_from_collection tc
          .ok { linked_location := linked_location, step_block := step_block,
                step_types := _get_all_supertypes_of_exact_type query_metadata_table exact_step_type,
                where_block := none, as_block := Block.markLocation l }
      | _ => .error .unexpectedStepBlocks

/-- Loop state of the main `for` loop of `convert_to_cypher_query`. -/
structure AssemblyState where
  steps : List CypherStep
  current_step_blocks : Option (List Block)
  linked_location : Option Nat
  next_linked_location : Option Nat
  deriving DecidableEq, Repr

/-- The main loop of `convert_to_cypher_query` (lines 122-161): left-to-right
pass over the remaining IR blocks; on `GlobalOperationsStart` the last step is
finished and the blocks after it are returned.  Reaching the end of the list
without a `GlobalOperationsStart` is the `global_operations_index is None`
fatal error. -/
def assembleSteps {QMT : Type} (query_metadata_table : QMT) (st : AssemblyState) :
    List Block → Except MalformedIrError (List CypherStep × List Block)
  | [] => .error .noGlobalOperations
  | block :: rest =>
    match block with
    | Block.globalOperationsStart => do
        let cypher_step ← _make_cypher_step query_metadata_table st.linked_location
          st.current_step_blocks
        .ok (st.steps ++ [cypher_step], rest)
    | Block.queryRoot _ =>
        match st.current_step_blocks with
        | some _ => .error .queryRootNotFirst
        | none =>
            assembleSteps query_metadata_table
              { st with current_step_blocks := some [block] } rest
    | Block.traverse _ _ => do
        let cypher_step ← _make_cypher_step query_metadata_table st.linked_location
          st.current_step_blocks
        assembleSteps query_metadata_table
          { steps := st.steps ++ [cypher_step], current_step_blocks := some [block],
            linked_location := st.next_linked_location, next_linked_location := none } rest
    | Block.recurse _ _ _ => do
        let cypher_step ← _make_cypher_step query_metadata_table st.linked_location
          st.current_step_blocks
        assembleSteps query_metadata_table
          { steps := st.steps ++ [cypher_step], current_step_blocks := some [block],
            linked_location := st.next_linked_location, next_linked_location := none } rest
    | Block.markLocation loc =>
        match st.current_step_blocks with
        | none => .error .noCurrentStepBuffer
        | some buf =>
            assembleSteps query_metadata_table
              { st with next_linked_location := some loc,
                        current_step_blocks := some (buf ++ [block]) } rest
    | Block.backtrack loc =>
        assembleSteps query_metadata_table
          { st with next_linked_location := some loc } rest
    | Block.unfold => assembleSteps query_metadata_table st rest
    | Block.outputSource => assembleSteps query_metadata_table st rest
    | Block.endOptional => assembleSteps query_metadata_table st rest
    | Block.filter _ =>
        match st.current_step_blocks with
        | none => .error .noCurrentStepBuffer
        | some buf =>
            assembleSteps query_metadata_table
              { st with current_step_blocks := some (buf ++ [block]) } rest
    | Block.coerceType _ =>
        match st.current_step_blocks with
        | none => .error .noCurrentStepBuffer
        | some buf =>
            assembleSteps query_metadata_table
              { st with current_step_blocks := some (buf ++ [block]) } rest
    | Block.fold _ => .error .unexpectedBlock
    | Block.constructResult _ => .error .unexpectedBlock

/-- `convert_to_cypher_query`.  The fold extractor
(`extract_folds_from_ir_blocks`, an external collaborator not under `src/`)
is a parameter: a pure function returning the folds mapping and the remaining
stream.  The unused `type_equivalence_hints` parameter is omitted. -/
def convert_to_cypher_query {QMT : Type}
    (extract_folds_from_ir_blocks : List Block → List (Nat × List Block) × List Block)
    (ir_blocks : List Block) (query_metadata_table : QMT) :
    Except MalformedIrError CypherQuery := do
  let (folds, remaining_ir_blocks) := extract_folds_from_ir_blocks ir_blocks
  let (steps, global_operations_blocks) ←
    assembleSteps query_metadata_table
      { steps := [], current_step_blocks := none,
        linked_location := none, next_linked_location := none } remaining_ir_blocks
  match global_operations_blocks with
  | [Block.filter p, Block.constructResult o] =>
      .ok { steps := steps, folds := folds,
            global_where_block := some (Block.filter p),
            output_block := Block.constructResult o }
  | [Block.constructResult o] =>
      .ok { steps := steps, folds := folds,
            global_where_block := none, output_block := Block.constructResult o }
  | _ => .error .unexpectedGlobalOperations

/-- An identity fold extraction: no fold scopes present in the stream. -/
def extractNoFolds (ir_blocks : List Block) : List (Nat × List Block) × List Block :=
  ([], ir_blocks)

/-- Blocks that open a new step: `QueryRoot`, `Traverse`, `Recurse`. -/
def isStepOpenerBlock : Block → Bool
  | Block.queryRoot _ => true
  | Block.traverse _ _ => true
  | Block.recurse _ _ _ => true
  | _ => false

/-- Head of the current step buffer, if any: the block that will become the
`step_block` of the step the buffer is reduced to. -/
def bufferHeadBlocks : Option (List Block) → List Block
  | some (b :: _) => [b]
  | _ => []

/-- Step buffers are `none` or non-empty: `some []` never arises in the loop. -/
def bufferWF : Option (List Block) → Prop
  | some [] => False
  | _ => True

/-- The example IR stream of claim C4: `QueryRoot(Animal)`, `MarkLocation(L1)`,
`Traverse(out, ParentOf)`, `CoerceType(Animal)`, `Filter(age>0)` (opaque
predicate id 7), `MarkLocation(L2)`, `GlobalOperationsStart`,
`ConstructResult(...)` (opaque payload 0); locations L1, L2 are 1, 2. -/
def irExample : List Block :=
  [Block.queryRoot ["Animal"], Block.markLocation 1,
   Block.traverse "out" "ParentOf", Block.coerceType ["Animal"],
   Block.filter 7, Block.markLocation 2,
   Block.globalOperationsStart, Block.constructResult 0]

/-- A stream with no `GlobalOperationsStart` block. -/
def irNoGlobalOps : List Block :=
  [Block.queryRoot ["A"], Block.markLocation 1]

/-- A stream whose `GlobalOperationsStart` is followed by no blocks at all. -/
def irEmptyGlobalOps : List Block :=
  [Block.queryRoot ["A"], Block.markLocation 1, Block.globalOperationsStart]

/-- The four step-buffer shapes named by the spec: the opening step is
`[QueryRoot, MarkLocation]` or `[QueryRoot, Filter, MarkLocation]`; subsequent
steps are `[Traverse|Recurse, CoerceType, MarkLocation]` or
`[Traverse|Recurse, CoerceType, Filter, MarkLocation]`. -/
def AllowedStepShape (blocks : List Block) : Prop :=
  (∃ sc l, blocks = [Block.queryRoot sc, Block.markLocation l]) ∨
  (∃ sc p l, blocks = [Block.queryRoot sc, Block.filter p, Block.markLocation l]) ∨
  (∃ b tc l, isStepOpenerBlock b = true ∧ b.isQueryRoot = false ∧
     blocks = [b, Block.coerceType tc, Block.markLocation l]) ∨
  (∃ b tc p l, isStepOpenerBlock b = true ∧ b.isQueryRoot = false ∧
     blocks = [b, Block.coerceType tc, Block.filter p, Block.markLocation l])

/-- The type collection a step buffer's types are extracted from: the
`QueryRoot` block's `start_class` for the opening step, otherwise the
`CoerceType` block's `target_class`. -/
def stepTypesCollection : List Block → Option (List String)
  | Block.queryRoot sc :: _ => some sc
  | _ :: Block.coerceType tc :: _ => some tc
  | _ => none

/-- Symbolic SQLAlchemy column-level expressions, as constructed by
`emit_sql.py`: table columns (`table.c[name]`, referenced by the alias id of
the owning selectable), literal columns, labels (including the anonymous
`label(None)`), `cast(..., String)`, `concat`, `+`, comparisons, `contains`,
the `case([(cond, 1)], else_=0)` construct and conjunction. -/
inductive Sql where
  | col (tableId : Nat) (name : String)
  | litcol (s : String)
  | intlit (n : Int)
  | strlit (s : String)
  | labeled (e : Sql) (name : String)
  | anonLabel (uid : Nat) (e : Sql)
  | castStr (e : Sql)
  | concat (a b : Sql)
  | plus (a b : Sql)
  | eqE (a b : Sql)
  | ltE (a b : Sql)
  | containsE (a b : Sql)
  | caseOne (cond : Sql) (thenVal elseVal : Int)
  | conj (a b : Sql)
  | trueLit
  deriving DecidableEq, Repr

/-- The `.name` attribute of a column expression (the empty string for
expressions that have no name attribute; the code only ever reads `.name` of
plain columns and labels). -/
def sqlName : Sql → String
  | .col _ n => n
  | .labeled _ n => n
  | .anonLabel uid _ => "anon_" ++ toString uid
  | _ => ""

/-- The output name a select-list expression exports a column under. -/
def colName : Sql → Option String
  | .col _ n => some n
  | .labeled _ n => some n
  | .anonLabel uid _ => some ("anon_" ++ toString uid)
  | _ => none

/-- Symbolic SQLAlchemy selectables: aliased tables (`get_table(...).alias()`
and `get_table_by_name(...).alias()`), select statements, aliased subqueries,
CTEs, the result of applying a named CTE attribute to the recursive step
(`getattr(cte, name)(query)` — for `union`/`union_all` the set-combination
of the recursive CTE with its recursive step, and for other accepted
attribute names whatever object the call returns, carried symbolically),
and joins.  Each aliasable construct carries the fresh id its columns are
referenced by. -/
inductive Selectable where
  | tableAlias (aliasId : Nat) (relation : String)
  | tableByNameAlias (aliasId : Nat) (tableName : String)
  | selectQ (columns : List Sql) (distinct : Bool)
      (fromClause : Option Selectable) (whereClause : Option Sql)
  | subqueryAlias (aliasId : Nat) (query : Selectable)
  | cte (cteId : Nat) (recursive : Bool) (query : Selectable)
  | combined (combId : Nat) (base : Selectable) (combinator : String) (query : Selectable)
  | join (left right : Selectable) (onclause : Sql)
  | outerjoin (left right : Selectable) (onclause : Sql)

/-- `and_(*predicates)`: the empty conjunction is vacuously true, a single
clause stands alone, more clauses are conjoined. -/
def and_ : List Sql → Sql
  | [] => Sql.trueLit
  | p :: ps => ps.foldl Sql.conj p

/-- A selection block (`SqlBlocks` selection from the `ir_lowering_sql`
module, not under `src/`; modelled from the spec's output-column
expressions).  `sid` identifies the selection; `table` is the selectable the
block currently references (mutated by `_update_table_for_blocks`);
`renamed` records that `selection.rename()` was called after CTE wrapping. -/
structure Selection where
  sid : Nat
  table : Option Nat
  renamed : Bool
  deriving DecidableEq, Repr

/-- A predicate block; `table` is mutated like for selections. -/
structure Predicate where
  pid : Nat
  table : Option Nat
  deriving DecidableEq, Repr

/-- The block at a query-tree node: the node's incoming IR block
(`QueryRoot`, `Traverse`, or `Recurse` with its direction and depth). -/
inductive NodeBlock where
  | queryRoot
  | traverse (direction : String)
  | recurse (direction : String) (depth : Int)
  deriving DecidableEq, Repr

/-- A node of the SQL query tree built by the external tree builder: its
incoming block, relation, ordinary children, recursion children, selections,
predicates and optional-scope flag.  `nid` models Python object identity
(used as the key of `recursion_to_column`). -/
inductive SqlNode where
  | mk (nid : Nat) (block : NodeBlock) (relation : String)
      (children_nodes : List SqlNode) (recursions : List SqlNode)
      (selections : List Selection) (predicates : List Predicate)
      (in_optional : Bool)

def SqlNode.nid : SqlNode → Nat
  | .mk n _ _ _ _ _ _ _ => n

def SqlNode.block : SqlNode → NodeBlock
  | .mk _ b _ _ _ _ _ _ => b

def SqlNode.relation : SqlNode → String
  | .mk _ _ r _ _ _ _ _ => r

def SqlNode.children_nodes : SqlNode → List SqlNode
  | .mk _ _ _ c _ _ _ _ => c

def SqlNode.recursions : SqlNode → List SqlNode
  | .mk _ _ _ _ r _ _ _ => r

def SqlNode.selections : SqlNode → List Selection
  | .mk _ _ _ _ _ s _ _ => s

def SqlNode.predicates : SqlNode → List Predicate
  | .mk _ _ _ _ _ _ p _ => p

def SqlNode.in_optional : SqlNode → Bool
  | .mk _ _ _ _ _ _ _ o => o

/-- Modelled from the spec: `BasicEdge` of the `ir_lowering_sql.metadata`
module (not under `src/`): a direct relation-to-relation edge with a source
column, a sink column, and the name of the table it traverses. -/
structure BasicEdge where
  table_name : String
  source_col : String
  sink_col : String
  deriving DecidableEq, Repr

/-- Modelled from the spec: the edge shapes the metadata can resolve: a
direct edge, a two-hop junction-table edge (`MultiEdge` with a junction edge
and a final edge), or an unrecognized shape (the fatal
`UnsupportedEdgeShapeError` branch). -/
inductive Edge where
  | basicE (e : BasicEdge)
  | multiE (junction_edge final_edge : BasicEdge)
  | otherE
  deriving DecidableEq, Repr

/-- The column names an edge contributes. -/
def edgeCols : Edge → List String
  | .basicE e => [e.source_col, e.sink_col]
  | .multiE j f => [j.source_col, j.sink_col, f.source_col, f.sink_col]
  | .otherE => []

/-- The metadata-provider interface consumed by the emitter (the
`CompilerMetadata` object of the `ir_lowering_sql` module, not under `src/`):
edge resolution keyed by node identity and relation, join clauses for a
child node, column expressions for selection blocks, predicate conditions,
and the backend's recursion set-combinator. -/
structure CompilerMetadata where
  get_edge : Nat → String → Edge
  get_on_clause_for_node : Nat → List Sql
  get_column_for_block : Selection → Sql
  get_predicate_condition : Nat → Predicate → Sql
  recursion_combinator : String

/-- Fatal emitter failures: out of fuel (embedding artifact for the
well-founded recursion over pulled-up recursion subtrees), the bare
`AssertionError` raises (unsupported edge shape), the unsupported recursion
combinator error, and the `KeyError`/`AttributeError` escapes on missing
recursion link columns. -/
inductive EmitError where
  | outOfFuel
  | assertionError
  | unsupportedRecursionCombinator (combinator : String)
  | missingRecursionColumn
  | missingOutColumn
  deriving DecidableEq, Repr

/-- The emission state of one query-tree node: the mutable fields of the
Python node object (`table`, `from_clause`, `selections`, `predicates`,
`recursions`, `recursion_to_column`, `link_columns`) together with the
immutable identity fields the emitter reads. -/
structure NodeEmit where
  nid : Nat
  blockInfo : NodeBlock
  relation : String
  in_optional : Bool
  table : Selectable
  tableId : Nat
  from_clause : Selectable
  selections : List Selection
  predicates : List Predicate
  recursions : List SqlNode
  recursion_to_column : List (Nat × Sql)
  link_columns : List Sql

/-- Insert-or-overwrite into the recursion-to-column mapping (Python dict
assignment; insertion order preserved, overwrite keeps the position). -/
def assocSet (m : List (Nat × Sql)) (k : Nat) (v : Sql) : List (Nat × Sql) :=
  if m.any (fun p => p.1 = k) then
    m.map (fun p => if p.1 = k then (k, v) else p)
  else m ++ [(k, v)]

/-- Dict lookup; `none` models the Python `KeyError` escape. -/
def assocGet (m : List (Nat × Sql)) (k : Nat) : Option Sql :=
  (m.find? (fun p => p.1 = k)).map (·.2)

/-- Modelled from the spec: `node.add_recursive_link_column` (node class not
under `src/`): records the link column for its key (a recursion node, or the
combined recursive query itself, which is never looked up again and is keyed
by `none` here) and appends it to the node's link columns, the columns a
recursive-CTE consumer needs (they are added to the node's selected columns
by `_create_base_query`). -/
def add_recursive_link_column (st : NodeEmit) (key : Option Nat) (c : Sql) : NodeEmit :=
  { st with
    recursion_to_column :=
      (match key with
       | some k => assocSet st.recursion_to_column k c
       | none => st.recursion_to_column)
    link_columns := st.link_columns ++ [c] }

/-- `_join_to_node`: compose the child's from-clause into the parent's, one
join per metadata-supplied on-clause: outer (left) joins when the child is
under an optional scope, inner joins otherwise. -/
def _join_to_node (compiler_metadata : CompilerMetadata) (node : NodeEmit)
    (child_node : NodeEmit) : NodeEmit :=
  let onclauses := compiler_metadata.get_on_clause_for_node child_node.nid
  if child_node.in_optional then
    { node with from_clause :=
        (onclauses.foldl
          (fun f onclause => Selectable.outerjoin f child_node.from_clause onclause)
          node.from_clause) }
  else
    { node with from_clause :=
        (onclauses.foldl
          (fun f onclause => Selectable.join f child_node.from_clause onclause)
          node.from_clause) }

/-- `_pull_up_node_blocks`: append the child's selections, predicates,
recursions, recursion link mapping and link columns into the parent. -/
def _pull_up_node_blocks (node : NodeEmit) (child_node : NodeEmit) : NodeEmit :=
  { node with
    selections := node.selections ++ child_node.selections
    predicates := node.predicates ++ child_node.predicates
    recursions := node.recursions ++ child_node.recursions
    recursion_to_column :=
      (child_node.recursion_to_column.foldl
        (fun m p => assocSet m p.1 p.2) node.recursion_to_column)
    link_columns := node.link_columns ++ child_node.link_columns }

/-- `_create_link_for_recursion`: record the join column that will link the
future recursive CTE of `recursion` back to `node`. -/
def _create_link_for_recursion (compiler_metadata : CompilerMetadata)
    (node : NodeEmit) (recursion : SqlNode) : Except EmitError NodeEmit :=
  match compiler_metadata.get_edge node.nid recursion.relation with
  | .basicE e =>
      .ok (add_recursive_link_column node (some recursion.nid)
        (Sql.col node.tableId e.source_col))
  | .multiE j _ =>
      .ok (add_recursive_link_column node (some recursion.nid)
        (Sql.col node.tableId j.source_col))
  | .otherE => .error .assertionError

/-- `_create_links_for_recursions`: one link per recursion child. -/
def _create_links_list (compiler_metadata : CompilerMetadata) (st : NodeEmit) :
    List SqlNode → Except EmitError NodeEmit
  | [] => .ok st
  | r :: rs => do
      let st' ← _create_link_for_recursion compiler_metadata st r
      _create_links_list compiler_metadata st' rs

/-- `_create_and_reference_table`: bind the node's relation to a fresh table
alias, set the node's table and from-clause to it, and rebind the node's
selection and predicate blocks to reference it; the node's emission state is
initialized from the tree node's immutable fields. -/
def _create_and_reference_table (node : SqlNode) (aliasId : Nat) : NodeEmit :=
  { nid := node.nid, blockInfo := node.block, relation := node.relation,
    in_optional := node.in_optional,
    table := Selectable.tableAlias aliasId node.relation, tableId := aliasId,
    from_clause := Selectable.tableAlias aliasId node.relation,
    selections := node.selections.map (fun s => { s with table := some aliasId }),
    predicates := node.predicates.map (fun p => { p with table := some aliasId }),
    recursions := node.recursions, recursion_to_column := [], link_columns := [] }

mutual

/-- `_collapse_query_tree`: recursively collapse the children, bind the
node's relation to a fresh alias (rebinding its selection and predicate
blocks), create the recursion link columns, then pull up and join each
collapsed child in order.  `fuel` only bounds the recursion depth of the
embedding; every run of the Python code corresponds to a large-enough fuel. -/
def _collapse_query_tree : Nat → CompilerMetadata → SqlNode → Nat →
    Except EmitError (NodeEmit × Nat)
  | 0, _, _, _ => .error .outOfFuel
  | fuel + 1, compiler_metadata, node, ctr => do
      let (child_emits, ctr₁) ←
        _collapse_child_nodes fuel compiler_metadata node.children_nodes ctr
      let st₀ := _create_and_reference_table node ctr₁
      let st₁ ← _create_links_list compiler_metadata st₀ node.recursions
      let st₂ := child_emits.foldl
        (fun st ce => _join_to_node compiler_metadata (_pull_up_node_blocks st ce) ce) st₁
      .ok (st₂, ctr₁ + 1)

/-- The child-collapsing loop of `_collapse_query_tree`. -/
def _collapse_child_nodes : Nat → CompilerMetadata → List SqlNode → Nat →
    Except EmitError (List NodeEmit × Nat)
  | 0, _, _, _ => .error .outOfFuel
  | _ + 1, _, [], ctr => .ok ([], ctr)
  | fuel + 1, compiler_metadata, n :: ns, ctr => do
      let (e, ctr₁) ← _collapse_query_tree fuel compiler_metadata n ctr
      let (es, ctr₂) ← _collapse_child_nodes fuel compiler_metadata ns ctr₁
      .ok (e :: es, ctr₂)

end

/-- Modelled from the external library: the attribute names of a SQLAlchemy
CTE construct that the `hasattr(recursive_cte, recursion_combinator)` check
(emit_sql.py line 131) can observe — the recursive set-combination methods
`union` and `union_all`, together with the aliasing, joining, selection and
column accessors every Alias-derived selectable carries.  This is a
representative subset: the real object has further attributes, all equally
accepted by `hasattr`.  In particular non-combinator names such as `alias`
or `join` pass the check and the code raises no error for them. -/
def cte_attributes : List String :=
  ["union", "union_all", "alias", "join", "outerjoin", "select", "lateral",
   "c", "columns", "name", "compile", "self_group", "params",
   "is_derived_from", "corresponding_column", "get_children",
   "primary_key", "foreign_keys"]

/-- The shared tail of `_create_recursive_clause` (lines 85-144): from the
resolved base/source/sink columns and the aliased traversed relation, build
the distinct-parent anchor restriction, the anchor query (depth 0, seeded
path), the recursive CTE, the recursive step (joined on sink = previous
source, depth incremented, path extended, guarded by depth < maxdepth and
the cycle check), apply the backend's recursion-combinator attribute of the
CTE to the recursive step (`getattr(recursive_cte, ...)(recursive_query)`,
guarded by the `hasattr` check over `cte_attributes`), join the result onto
the node and expose the sink column as the out link. -/
def buildRecursiveClause (compiler_metadata : CompilerMetadata) (st : NodeEmit)
    (out_link_column : Sql) (depth : Int) (base_col source_col sink_col : String)
    (recursive_table : Selectable) (recTabId : Nat) (ctr : Nat) :
    Except EmitError (Sql × NodeEmit × Nat) :=
  let parent_cte_column := Sql.col st.tableId (sqlName out_link_column)
  let dpqId := ctr
  let distinct_parent_column_query := Selectable.subqueryAlias dpqId
    (Selectable.selectQ [Sql.labeled parent_cte_column "link"] true none none)
  let anchor_query := Selectable.selectQ
    [ Sql.labeled (Sql.col st.tableId base_col) source_col,
      Sql.labeled (Sql.col st.tableId base_col) sink_col,
      Sql.labeled (Sql.litcol "0") "__depth_internal_name",
      Sql.labeled (Sql.concat (Sql.castStr (Sql.col st.tableId base_col))
        (Sql.strlit ",")) "path" ]
    true
    (some (Selectable.join st.table distinct_parent_column_query
      (Sql.eqE (Sql.col st.tableId base_col) (Sql.col dpqId "link"))))
    none
  let cteId := ctr + 1
  let recursive_cte := Selectable.cte cteId true anchor_query
  let recursive_query := Selectable.selectQ
    [ Sql.col recTabId source_col,
      Sql.col cteId sink_col,
      Sql.labeled (Sql.plus (Sql.col cteId "__depth_internal_name") (Sql.intlit 1))
        "__depth_internal_name",
      Sql.labeled (Sql.concat (Sql.concat (Sql.col cteId "path")
        (Sql.castStr (Sql.col recTabId source_col))) (Sql.strlit ",")) "path" ]
    false
    (some (Selectable.join recursive_table recursive_cte
      (Sql.eqE (Sql.col recTabId sink_col) (Sql.col cteId source_col))))
    (some (Sql.conj
      (Sql.ltE (Sql.col cteId "__depth_internal_name") (Sql.intlit depth))
      (Sql.eqE (Sql.caseOne (Sql.containsE (Sql.col cteId "path")
        (Sql.castStr (Sql.col recTabId source_col))) 1 0) (Sql.intlit 0))))
  if cte_attributes.contains compiler_metadata.recursion_combinator then
    let combId := ctr + 2
    let combined_query := Selectable.combined combId recursive_cte
      compiler_metadata.recursion_combinator recursive_query
    let from_clause := Selectable.join st.from_clause combined_query
      (Sql.eqE (Sql.col st.tableId base_col) (Sql.col combId source_col))
    let out_link := Sql.anonLabel (ctr + 3) (Sql.col combId sink_col)
    let st' := add_recursive_link_column { st with from_clause := from_clause } none out_link
    .ok (out_link, st', ctr + 4)
  else
    .error (.unsupportedRecursionCombinator compiler_metadata.recursion_combinator)

/-- `_create_recursive_clause`: resolve the node's edge metadata (basic or
junction-table, honoring the traversal direction), then build the recursive
clause.  The code's combinator check (`hasattr(recursive_cte, ...)`) is
modelled as membership in `cte_attributes`, the attribute names of the CTE
construct. -/
def _create_recursive_clause (compiler_metadata : CompilerMetadata) (st : NodeEmit)
    (out_link_column : Sql) (ctr : Nat) : Except EmitError (Sql × NodeEmit × Nat) :=
  match st.blockInfo with
  | .recurse direction depth =>
    match compiler_metadata.get_edge st.nid st.relation with
    | .basicE e =>
        let base_col := e.source_col
        let cols := if direction = "in" then (e.sink_col, e.source_col)
                    else (e.source_col, e.sink_col)
        let recursive_table := Selectable.tableAlias ctr st.relation
        buildRecursiveClause compiler_metadata st out_link_column depth
          base_col cols.1 cols.2 recursive_table ctr (ctr + 1)
    | .multiE junction_edge final_edge =>
        let base_col := junction_edge.source_col
        let cols := if direction = "in" then (junction_edge.sink_col, final_edge.source_col)
                    else (final_edge.source_col, junction_edge.sink_col)
        let recursive_table := Selectable.tableByNameAlias ctr junction_edge.table_name
        buildRecursiveClause compiler_metadata st out_link_column depth
          base_col cols.1 cols.2 recursive_table ctr (ctr + 1)
    | .otherE => .error .assertionError
  | _ => .error .assertionError

/-- `_create_query`: a distinct select of the columns from the node's
from-clause, with a conjoined where-clause when predicates are supplied. -/
def _create_query (node : NodeEmit) (columns : List Sql)
    (predicates : Option (List Sql)) : Selectable :=
  match predicates with
  | none => Selectable.selectQ columns true (some node.from_clause) none
  | some preds =>
      Selectable.selectQ columns true (some node.from_clause) (some (and_ preds))

/-- `_create_base_query`: the node's selection columns plus its link columns,
filtered by its predicate conditions. -/
def _create_base_query (compiler_metadata : CompilerMetadata) (node : NodeEmit) :
    Selectable :=
  let selection_columns :=
    node.selections.map compiler_metadata.get_column_for_block ++ node.link_columns
  let predicates :=
    node.predicates.map (compiler_metadata.get_predicate_condition node.nid)
  _create_query node selection_columns (some predicates)

/-- `_create_final_query`: the outward-facing statement of the tree root: all
accumulated selections, distinct, from the accumulated from-clause, and no
predicate clause (predicates are already captured in the per-node CTEs). -/
def _create_final_query (compiler_metadata : CompilerMetadata) (node : NodeEmit) :
    Selectable :=
  _create_query node (node.selections.map compiler_metadata.get_column_for_block) none

/-- `_wrap_query_as_cte`: materialize the node's query as a named CTE; the
node's table and from-clause become the CTE and the selection blocks are
rebound (and renamed) to its columns. -/
def _wrap_query_as_cte (node : NodeEmit) (query : Selectable) (ctr : Nat) :
    NodeEmit × Nat :=
  let cteId := ctr
  let cte := Selectable.cte cteId false query
  ({ node with
      from_clause := cte
      table := cte
      tableId := cteId
      selections :=
        (node.selections.map
          (fun s => { s with table := some cteId, renamed := true })) }, ctr + 1)

/-- `_join_to_recursive_node`: join an emitted recursion child back onto the
node using the recorded in-column and the child's out-column. -/
def _join_to_recursive_node (node : NodeEmit) (recursion_in_column : Sql)
    (recursive_node : NodeEmit) (recursion_out_column : Sql) : NodeEmit :=
  let current_cte_column := Sql.col node.tableId (sqlName recursion_in_column)
  let recursive_cte_column :=
    Sql.col recursive_node.tableId (sqlName recursion_out_column)
  { node with from_clause :=
      (Selectable.join node.from_clause recursive_node.from_clause
        (Sql.eqE current_cte_column recursive_cte_column)) }

/-- Result of `_query_tree_to_query`: the final statement for the tree root
(`node.parent_node is None`), or the recursion out-column for a recursion
subtree. -/
inductive EmitResult where
  | rootQuery (q : Selectable)
  | outColumn (c : Option Sql)

/-- Step 2 of `_query_tree_to_query`: if the node's incoming block is a
`Recurse`, create the recursive clause linked to the supplied link column
(whose absence is the Python `AttributeError` escape). -/
def _maybe_create_recursive_clause (compiler_metadata : CompilerMetadata)
    (st : NodeEmit) (recursion_in_column : Option Sql) (ctr : Nat) :
    Except EmitError (Option Sql × NodeEmit × Nat) :=
  match st.blockInfo with
  | NodeBlock.recurse _ _ =>
    match recursion_in_column with
    | none => Except.error EmitError.missingOutColumn
    | some inc => do
        let (oc, st', c') ← _create_recursive_clause compiler_metadata st inc ctr
        Except.ok (some oc, st', c')
  | _ => Except.ok (none, st, ctr)

mutual

/-- `_query_tree_to_query`: collapse the subtree, create the recursive clause
when the node's incoming block is a `Recurse`, materialize the node as a CTE,
then emit and join every pulled-up recursion subtree; the root returns the
final query, a recursion subtree returns its out-column. -/
def _query_tree_to_query : Nat → CompilerMetadata → SqlNode → Bool → Option Sql → Nat →
    Except EmitError (EmitResult × NodeEmit × Nat)
  | 0, _, _, _, _, _ => .error .outOfFuel
  | fuel + 1, compiler_metadata, node, isRoot, recursion_in_column, ctr => do
      let (st, ctr₁) ← _collapse_query_tree fuel compiler_metadata node ctr
      let (recursion_out_column, st₁, ctr₂) ←
        _maybe_create_recursive_clause compiler_metadata st recursion_in_column ctr₁
      let query := _create_base_query compiler_metadata st₁
      let (st₂, ctr₃) := _wrap_query_as_cte st₁ query ctr₂
      let (st₃, recursive_selections, ctr₄) ←
        _traverse_recursion_list fuel compiler_metadata st₂ st₂.recursions [] ctr₃
      let st₄ := { st₃ with selections := st₃.selections ++ recursive_selections }
      if isRoot then
        .ok (.rootQuery (_create_final_query compiler_metadata st₄), st₄, ctr₄)
      else
        .ok (.outColumn recursion_out_column, st₄, ctr₄)

/-- `_traverse_recursions`: emit each pulled-up recursion subtree with its
recorded in-column, join it back, and collect its selections (appended to the
node's selections after the loop). -/
def _traverse_recursion_list : Nat → CompilerMetadata → NodeEmit → List SqlNode →
    List Selection → Nat → Except EmitError (NodeEmit × List Selection × Nat)
  | 0, _, _, _, _, _ => .error .outOfFuel
  | _ + 1, _, st, [], acc, ctr => .ok (st, acc, ctr)
  | fuel + 1, compiler_metadata, st, r :: rs, acc, ctr =>
      match assocGet st.recursion_to_column r.nid with
      | none => .error .missingRecursionColumn
      | some recursion_in_column => do
          let (res, recEmit, ctr₁) ←
            _query_tree_to_query fuel compiler_metadata r false
              (some recursion_in_column) ctr
          match (match res with
                 | EmitResult.outColumn c => c
                 | EmitResult.rootQuery _ => none) with
          | none => .error .missingOutColumn
          | some recursion_out_column =>
              let st' := _join_to_recursive_node st recursion_in_column recEmit
                recursion_out_column
              _traverse_recursion_list fuel compiler_metadata st' rs
                (acc ++ recEmit.selections) ctr₁

end

/-- `emit_code_from_ir`: emit the full tree from its root.  The
`location_to_selectable` dictionary created by the Python function is threaded
through but never consulted, and is omitted. -/
def emit_code_from_ir (fuel : Nat) (sql_query_tree : SqlNode)
    (compiler_metadata : CompilerMetadata) : Except EmitError Selectable :=
  match _query_tree_to_query fuel compiler_metadata sql_query_tree true none 0 with
  | .ok (.rootQuery q, _, _) => .ok q
  | .ok (.outColumn _, _, _) => .error .assertionError
  | .error e => .error e

/-- SQL values for evaluating emitted expressions: integers, strings, NULL. -/
inductive Val where
  | i (n : Int)
  | s (str : String)
  | null
  deriving DecidableEq, Repr

/-- Whether `needle` starts `hay`. -/
def charsStartWith : List Char → List Char → Bool
  | [], _ => true
  | _ :: _, [] => false
  | a :: as, b :: bs => a = b && charsStartWith as bs

/-- Whether `needle` occurs inside `hay`. -/
def charsContain (needle : List Char) : List Char → Bool
  | [] => needle.isEmpty
  | b :: bs => charsStartWith needle (b :: bs) || charsContain needle bs

/-- SQL string containment (the `contains` operator). -/
def strContainsB (hay needle : String) : Bool :=
  charsContain needle.data hay.data

/-- Value of a decimal digit character. -/
def charDigit (c : Char) : Option Nat :=
  if 48 ≤ c.toNat ∧ c.toNat ≤ 57 then some (c.toNat - 48) else none

/-- The integer a `literal_column` string denotes, when it is a decimal
numeral (the emitter only ever emits `literal_column('0')`). -/
def parseIntLit (s : String) : Option Int :=
  match s.data with
  | [] => none
  | cs =>
    (cs.foldl (fun acc c =>
      match acc, charDigit c with
      | some n, some d => some (n * 10 + d)
      | _, _ => none) (some 0)).map (fun n => (n : Int))

/-- Modelled from the spec: evaluation of emitted column expressions over an
environment assigning a value to each (selectable alias id, column name)
pair.  Boolean operators evaluate to the integers 1/0; ill-typed operands
evaluate to NULL. -/
def evalSql (env : Nat → String → Val) : Sql → Val
  | .col t n => env t n
  | .litcol s =>
      (match parseIntLit s with
       | some i => Val.i i
       | none => Val.null)
  | .intlit n => .i n
  | .strlit s => .s s
  | .labeled e _ => evalSql env e
  | .anonLabel _ e => evalSql env e
  | .castStr e =>
      (match evalSql env e with
       | .i n => Val.s (toString n)
       | .s t => Val.s t
       | .null => Val.null)
  | .concat a b =>
      (match evalSql env a, evalSql env b with
       | .s x, .s y => Val.s (x ++ y)
       | _, _ => Val.null)
  | .plus a b =>
      (match evalSql env a, evalSql env b with
       | .i x, .i y => Val.i (x + y)
       | _, _ => Val.null)
  | .eqE a b =>
      (match evalSql env a, evalSql env b with
       | .i x, .i y => Val.i (if x = y then 1 else 0)
       | .s x, .s y => Val.i (if x = y then 1 else 0)
       | _, _ => Val.null)
  | .ltE a b =>
      (match evalSql env a, evalSql env b with
       | .i x, .i y => Val.i (if x < y then 1 else 0)
       | _, _ => Val.null)
  | .containsE a b =>
      (match evalSql env a, evalSql env b with
       | .s x, .s y => Val.i (if strContainsB x y then 1 else 0)
       | _, _ => Val.null)
  | .caseOne c t e =>
      (match evalSql env c with
       | .i n => Val.i (if n ≠ 0 then t else e)
       | _ => Val.i e)
  | .conj a b =>
      (match evalSql env a, evalSql env b with
       | .i x, .i y => Val.i (if x ≠ 0 ∧ y ≠ 0 then 1 else 0)
       | _, _ => Val.null)
  | .trueLit => .i 1

/-- SQL truth of an evaluated condition: a nonzero integer. -/
def evalBool (env : Nat → String → Val) (e : Sql) : Bool :=
  match evalSql env e with
  | .i n => n ≠ 0
  | _ => false

/-- The select list of a select statement (empty for other selectables). -/
def selectCols : Selectable → List Sql
  | .selectQ cols _ _ _ => cols
  | _ => []

/-- The where-clause of a select statement. -/
def selectWhere : Selectable → Option Sql
  | .selectQ _ _ _ w => w
  | _ => none

/-- The row a select statement produces under an environment: each output
column name is bound to its evaluated expression. -/
def rowOfSelect (cols : List Sql) (env : Nat → String → Val) : String → Val :=
  fun name =>
    match cols.find? (fun c => colName c = some name) with
    | some e => evalSql env e
    | none => Val.null

/-- Modelled from the spec: the rows a recursive CTE (anchor combined with a
recursive step by `UNION`/`UNION ALL`) can emit over an arbitrary database.
A base row evaluates the anchor query's output columns under some
environment; a derived row evaluates the step query's output columns under
an environment whose CTE-reference columns (alias `cteId`) are bound to an
already-emitted row, subject to the step query's where-clause.  Join
conditions and table contents are over-approximated (any environment is
allowed), which is sound for upper-bound properties such as the depth
bound. -/
inductive RecCteRow (cteId : Nat) (anchorQ stepQ : Selectable) : (String → Val) → Prop where
  | anchor (env : Nat → String → Val)
      (hwhere : ∀ w, selectWhere anchorQ = some w → evalBool env w = true) :
      RecCteRow cteId anchorQ stepQ (rowOfSelect (selectCols anchorQ) env)
  | step (env : Nat → String → Val) (prev : String → Val)
      (hprev : RecCteRow cteId anchorQ stepQ prev)
      (hbind : ∀ c, env cteId c = prev c)
      (hwhere : ∀ w, selectWhere stepQ = some w → evalBool env w = true) :
      RecCteRow cteId anchorQ stepQ (rowOfSelect (selectCols stepQ) env)

/-- What claim C1 asserts of a successfully built recursive clause: there are
fresh ids and edge-determined column names such that the node's from-clause
gains a join against the combination of (a) an anchor query — selecting the
base column twice (labeled as source and sink), a constant-0 depth column,
and a path column seeded with the stringified anchor key followed by a comma,
restricted to the distinct parent link values — and (b) a recursive step —
joining the traversed relation to the previous iteration on (new sink column
= previous source column), labeling its depth column as the previous depth
plus one, appending the stringified new key and a comma to the path, and
guarded by a where-clause requiring the previous depth to be strictly less
than the maximum AND the new key to not already occur in the accumulated
path; the sink column becomes the node's out link column; and, whenever the
edge columns do not shadow the internal depth name and the maximum depth is
non-negative, no row the recursive CTE can emit has depth greater than the
maximum. -/
def RecursiveClauseSpec (compiler_metadata : CompilerMetadata) (st : NodeEmit)
    (out_link_column : Sql) (direction : String) (depth : Int)
    (out : Sql) (st' : NodeEmit) : Prop :=
  ∃ (recTabId dpqId cteId combId uid : Nat)
    (base_col source_col sink_col : String)
    (recursive_table anchor_query step_query : Selectable),
    ((∃ e, compiler_metadata.get_edge st.nid st.relation = Edge.basicE e ∧
        base_col = e.source_col ∧
        (if direction = "in" then source_col = e.sink_col ∧ sink_col = e.source_col
         else source_col = e.source_col ∧ sink_col = e.sink_col) ∧
        recursive_table = Selectable.tableAlias recTabId st.relation) ∨
     (∃ j f, compiler_metadata.get_edge st.nid st.relation = Edge.multiE j f ∧
        base_col = j.source_col ∧
        (if direction = "in" then source_col = j.sink_col ∧ sink_col = f.source_col
         else source_col = f.source_col ∧ sink_col = j.sink_col) ∧
        recursive_table = Selectable.tableByNameAlias recTabId j.table_name)) ∧
    anchor_query = Selectable.selectQ
      [ Sql.labeled (Sql.col st.tableId base_col) source_col,
        Sql.labeled (Sql.col st.tableId base_col) sink_col,
        Sql.labeled (Sql.litcol "0") "__depth_internal_name",
        Sql.labeled (Sql.concat (Sql.castStr (Sql.col st.tableId base_col))
          (Sql.strlit ",")) "path" ]
      true
      (some (Selectable.join st.table
        (Selectable.subqueryAlias dpqId (Selectable.selectQ
          [Sql.labeled (Sql.col st.tableId (sqlName out_link_column)) "link"]
          true none none))
        (Sql.eqE (Sql.col st.tableId base_col) (Sql.col dpqId "link"))))
      none ∧
    step_query = Selectable.selectQ
      [ Sql.col recTabId source_col,
        Sql.col cteId sink_col,
        Sql.labeled (Sql.plus (Sql.col cteId "__depth_internal_name") (Sql.intlit 1))
          "__depth_internal_name",
        Sql.labeled (Sql.concat (Sql.concat (Sql.col cteId "path")
          (Sql.castStr (Sql.col recTabId source_col))) (Sql.strlit ",")) "path" ]
      false
      (some (Selectable.join recursive_table (Selectable.cte cteId true anchor_query)
        (Sql.eqE (Sql.col recTabId sink_col) (Sql.col cteId source_col))))
      (some (Sql.conj
        (Sql.ltE (Sql.col cteId "__depth_internal_name") (Sql.intlit depth))
        (Sql.eqE (Sql.caseOne (Sql.containsE (Sql.col cteId "path")
          (Sql.castStr (Sql.col recTabId source_col))) 1 0) (Sql.intlit 0)))) ∧
    st'.from_clause = Selectable.join st.from_clause
      (Selectable.combined combId (Selectable.cte cteId true anchor_query)
        compiler_metadata.recursion_combinator step_query)
      (Sql.eqE (Sql.col st.tableId base_col) (Sql.col combId source_col)) ∧
    out = Sql.anonLabel uid (Sql.col combId sink_col) ∧
    st'.link_columns = st.link_columns ++ [out] ∧
    st'.selections = st.selections ∧
    st'.predicates = st.predicates ∧
    st'.recursion_to_column = st.recursion_to_column ∧
    st'.table = st.table ∧
    (source_col ≠ "__depth_internal_name" → sink_col ≠ "__depth_internal_name" →
      0 ≤ depth →
      ∀ row, RecCteRow cteId anchor_query step_query row →
        ∀ n, row "__depth_internal_name" = Val.i n → n ≤ depth)

mutual

/-- Spec-side reference order: the selection ids of a query subtree in
insertion order — the node's own selections, then each child subtree's, depth
first, in child order. -/
def treeSelectionSids : SqlNode → List Nat
  | SqlNode.mk _ _ _ children _ sels _ _ =>
      sels.map Selection.sid ++ treeSelectionSidsList children

/-- Reference order over a list of sibling subtrees. -/
def treeSelectionSidsList : List SqlNode → List Nat
  | [] => []
  | n :: ns => treeSelectionSids n ++ treeSelectionSidsList ns

end

/-- A concrete metadata provider for witnesses. -/
def metaW : CompilerMetadata :=
  { get_edge := fun _ _ => Edge.basicE ⟨"animal", "parent_id", "child_id"⟩
    get_on_clause_for_node := fun _ => [Sql.trueLit]
    get_column_for_block := fun s => Sql.col (s.table.getD 0) "name"
    get_predicate_condition := fun _ _ => Sql.trueLit
    recursion_combinator := "union" }

/-- The metadata provider of the C7 counterexample: its recursion combinator
is `alias`, a CTE attribute that is not a set-combination operator; the
`hasattr` check accepts it and the code raises no error. -/
def metaAlias : CompilerMetadata :=
  { metaW with recursion_combinator := "alias" }

/-- A concrete collapsed recursion-node state for witnesses. -/
def stW : NodeEmit :=
  { nid := 0, blockInfo := NodeBlock.recurse "out" 3, relation := "animal",
    in_optional := false, table := Selectable.tableAlias 0 "animal", tableId := 0,
    from_clause := Selectable.tableAlias 0 "animal",
    selections := [], predicates := [], recursions := [],
    recursion_to_column := [], link_columns := [] }

/-- A concrete collapsed child state for witnesses. -/
def childW : NodeEmit :=
  { nid := 2, blockInfo := NodeBlock.traverse "out", relation := "parent",
    in_optional := false, table := Selectable.tableAlias 1 "parent", tableId := 1,
    from_clause := Selectable.tableAlias 1 "parent",
    selections := [⟨7, some 1, false⟩], predicates := [], recursions := [],
    recursion_to_column := [], link_columns := [] }

/-- A concrete one-node query tree for witnesses. -/
def nodeW : SqlNode :=
  SqlNode.mk 0 NodeBlock.queryRoot "animal" [] [] [⟨5, none, false⟩] [] false

/-- A concrete two-node query tree (root with one ordinary child). -/
def nodeW2 : SqlNode :=
  SqlNode.mk 1 NodeBlock.queryRoot "animal"
    [SqlNode.mk 2 (NodeBlock.traverse "out") "parent" [] [] [⟨7, none, false⟩] [] false]
    [] [⟨5, none, false⟩] [] false

/-- Concatenation of the selections of a list of collapsed child states. -/
def concatSelections : List NodeEmit → List Selection
  | [] => []
  | ce :: ces => ce.selections ++ concatSelections ces

/-- The right-hand operands of the left spine of (outer) joins of a
from-clause, innermost first: the order in which relations were joined in. -/
def joinRightSpine : Selectable → List Selectable
  | .join l r _ => joinRightSpine l ++ [r]
  | .outerjoin l r _ => joinRightSpine l ++ [r]
  | _ => []

/-- Spec-side reference join order of a node's from-clause: for each
collapsed child in order, one join per metadata on-clause, each bringing the
child's accumulated from-clause. -/
def childJoinOrder (compiler_metadata : CompilerMetadata) :
    List NodeEmit → List Selectable
  | [] => []
  | ce :: ces =>
      (compiler_metadata.get_on_clause_for_node ce.nid).map (fun _ => ce.from_clause) ++
        childJoinOrder compiler_metadata ces

/-- A successful singleton extraction pins the collection. -/
lemma get_only_element_ok {α : Type} {l : List α} {x : α}
    (h : get_only_element_from_collection l = .ok x) : l = [x] := by
  match l with
  | [] => simp [get_only_element_from_collection] at h
  | [a] => simpa [get_only_element_from_collection] using h
  | _ :: _ :: _ => simp [get_only_element_from_collection] at h

/-- Full characterization of a successful `_make_cypher_step` call: the buffer
is non-empty, its head becomes the step block, and the buffer has one of the
four accepted shapes with a singleton type collection. -/
lemma make_cypher_step_ok_cases {QMT : Type} (qmt : QMT) (loc : Option Nat)
    (buf : Option (List Block)) (s : CypherStep)
    (h : _make_cypher_step qmt loc buf = .ok s) :
    ∃ b bs, buf = some (b :: bs) ∧ s.step_block = b ∧
      ((∃ sc t p l, b = Block.queryRoot sc ∧ sc = [t] ∧
          bs = [Block.filter p, Block.markLocation l] ∧
          s = ⟨loc, b, [t], some (Block.filter p), Block.markLocation l⟩) ∨
       (∃ sc t l, b = Block.queryRoot sc ∧ sc = [t] ∧
          bs = [Block.markLocation l] ∧
          s = ⟨loc, b, [t], none, Block.markLocation l⟩) ∨
       (∃ tc t p l, b.isQueryRoot = false ∧
          bs = [Block.coerceType tc, Block.filter p, Block.markLocation l] ∧ tc = [t] ∧
          s = ⟨loc, b, [t], some (Block.filter p), Block.markLocation l⟩) ∨
       (∃ tc t l, b.isQueryRoot = false ∧
          bs = [Block.coerceType tc, Block.markLocation l] ∧ tc = [t] ∧
          s = ⟨loc, b, [t], none, Block.markLocation l⟩)) := by
  match buf with
  | none => simp [_make_cypher_step] at h
  | some [] => simp [_make_cypher_step] at h
  | some (b :: bs) =>
    refine ⟨b, bs, rfl, ?_⟩
    simp only [_make_cypher_step] at h
    by_cases hroot : b.isQueryRoot = true
    · obtain ⟨sc, rfl⟩ : ∃ sc, b = Block.queryRoot sc := by
        cases b <;> simp_all [Block.isQueryRoot]
      rw [if_pos hroot] at h
      rw [_make_query_root_cypher_step.eq_def] at h
      split at h
      · next p l heq =>
        simp only [List.cons.injEq, Block.queryRoot.injEq] at heq
        obtain ⟨hsc, hbs⟩ := heq
        subst hsc; subst hbs
        simp only [bind, Except.bind] at h
        cases hg : @get_only_element_from_collection String sc with
        | error e => rw [hg] at h; exact absurd h (by simp)
        | ok t =>
          rw [hg] at h
          have hsct := get_only_element_ok hg
          simp only [Except.ok.injEq] at h
          subst h
          exact ⟨rfl, Or.inl ⟨sc, t, p, l, rfl, hsct, rfl, rfl⟩⟩
      · next l heq =>
        simp only [List.cons.injEq, Block.queryRoot.injEq] at heq
        obtain ⟨hsc, hbs⟩ := heq
        subst hsc; subst hbs
        simp only [bind, Except.bind] at h
        cases hg : @get_only_element_from_collection String sc with
        | error e => rw [hg] at h; exact absurd h (by simp)
        | ok t =>
          rw [hg] at h
          have hsct := get_only_element_ok hg
          simp only [Except.ok.injEq] at h
          subst h
          exact ⟨rfl, Or.inr (Or.inl ⟨sc, t, l, rfl, hsct, rfl, rfl⟩)⟩
      · exact absurd h (by simp)
    · rw [if_neg hroot] at h
      have hb : b.isQueryRoot = false := by simpa using hroot
      split at h
      · next tc p l =>
        simp only [bind, Except.bind] at h
        cases hg : @get_only_element_from_collection String tc with
        | error e => rw [hg] at h; exact absurd h (by simp)
        | ok t =>
          rw [hg] at h
          have htct := get_only_element_ok hg
          simp only [Except.ok.injEq] at h
          subst h
          exact ⟨rfl, Or.inr (Or.inr (Or.inl ⟨tc, t, p, l, hb, rfl, htct, rfl⟩))⟩
      · next tc l =>
        simp only [bind, Except.bind] at h
        cases hg : @get_only_element_from_collection String tc with
        | error e => rw [hg] at h; exact absurd h (by simp)
        | ok t =>
          rw [hg] at h
          have htct := get_only_element_ok hg
          simp only [Except.ok.injEq] at h
          subst h
          exact ⟨rfl, Or.inr (Or.inr (Or.inr ⟨tc, t, l, hb, rfl, htct, rfl⟩))⟩
      · exact absurd h (by simp)

/-- Structure of a successful run of the main loop: the consumed blocks are
the prefix before the first `GlobalOperationsStart`, and the step blocks of
the produced steps are exactly the `QueryRoot`/`Traverse`/`Recurse` blocks of
that prefix (after the inherited state), in input order. -/
lemma assembleSteps_ok_split {QMT : Type} (qmt : QMT) :
    ∀ (blocks : List Block) (st : AssemblyState) (steps : List CypherStep) (rest : List Block),
      bufferWF st.current_step_blocks →
      assembleSteps qmt st blocks = .ok (steps, rest) →
      ∃ pre, blocks = pre ++ Block.globalOperationsStart :: rest ∧
        Block.globalOperationsStart ∉ pre ∧
        steps.map (·.step_block) =
          st.steps.map (·.step_block) ++ bufferHeadBlocks st.current_step_blocks ++
            pre.filter isStepOpenerBlock := by
  intro blocks
  induction blocks with
  | nil => intro st steps rest hw h; simp [assembleSteps] at h
  | cons b blocks ih =>
    intro st steps rest hw h
    cases b with
    | globalOperationsStart =>
      simp only [assembleSteps] at h
      cases hm : _make_cypher_step qmt st.linked_location st.current_step_blocks with
      | error e => rw [hm] at h; simp [bind, Except.bind] at h
      | ok s =>
        rw [hm] at h
        simp only [bind, Except.bind, Except.ok.injEq, Prod.mk.injEq] at h
        obtain ⟨hsteps, hrest⟩ := h
        subst hsteps; subst hrest
        obtain ⟨b₀, bs₀, hbuf, hsb, _⟩ := make_cypher_step_ok_cases qmt st.linked_location _ s hm
        refine ⟨[], rfl, by simp, ?_⟩
        simp [hbuf, bufferHeadBlocks, hsb]
    | queryRoot sc =>
      simp only [assembleSteps] at h
      cases hbuf : st.current_step_blocks with
      | some buf => rw [hbuf] at h; simp at h
      | none =>
        rw [hbuf] at h
        obtain ⟨pre, hpre, hmem, hmap⟩ := ih _ _ _ (by trivial) h
        refine ⟨Block.queryRoot sc :: pre, by simp [hpre], by simpa using hmem, ?_⟩
        simp only [hmap]
        simp [hbuf, bufferHeadBlocks, isStepOpenerBlock]
    | traverse dir en =>
      simp only [assembleSteps] at h
      cases hm : _make_cypher_step qmt st.linked_location st.current_step_blocks with
      | error e => rw [hm] at h; simp [bind, Except.bind] at h
      | ok s =>
        rw [hm] at h
        simp only [bind, Except.bind] at h
        obtain ⟨pre, hpre, hmem, hmap⟩ := ih _ _ _ (by trivial) h
        obtain ⟨b₀, bs₀, hbuf, hsb, _⟩ := make_cypher_step_ok_cases qmt st.linked_location _ s hm
        refine ⟨Block.traverse dir en :: pre, by simp [hpre], by simpa using hmem, ?_⟩
        simp only [hmap]
        simp [hbuf, bufferHeadBlocks, isStepOpenerBlock, hsb]
    | recurse dir en d =>
      simp only [assembleSteps] at h
      cases hm : _make_cypher_step qmt st.linked_location st.current_step_blocks with
      | error e => rw [hm] at h; simp [bind, Except.bind] at h
      | ok s =>
        rw [hm] at h
        simp only [bind, Except.bind] at h
        obtain ⟨pre, hpre, hmem, hmap⟩ := ih _ _ _ (by trivial) h
        obtain ⟨b₀, bs₀, hbuf, hsb, _⟩ := make_cypher_step_ok_cases qmt st.linked_location _ s hm
        refine ⟨Block.recurse dir en d :: pre, by simp [hpre], by simpa using hmem, ?_⟩
        simp only [hmap]
        simp [hbuf, bufferHeadBlocks, isStepOpenerBlock, hsb]
    | markLocation loc =>
      simp only [assembleSteps] at h
      cases hbuf : st.current_step_blocks with
      | none => rw [hbuf] at h; simp at h
      | some buf =>
        rw [hbuf] at h
        cases buf with
        | nil => rw [hbuf] at hw; exact hw.elim
        | cons b₀ bs₀ =>
          obtain ⟨pre, hpre, hmem, hmap⟩ := ih _ _ _ (by trivial) h
          refine ⟨Block.markLocation loc :: pre, by simp [hpre], by simpa using hmem, ?_⟩
          simp only [hmap]
          simp [hbuf, bufferHeadBlocks, isStepOpenerBlock]
    | backtrack loc =>
      simp only [assembleSteps] at h
      obtain ⟨pre, hpre, hmem, hmap⟩ := ih _ _ _ (by simpa using hw) h
      refine ⟨Block.backtrack loc :: pre, by simp [hpre], by simpa using hmem, ?_⟩
      simp only [hmap]
      simp [bufferHeadBlocks, isStepOpenerBlock]
    | unfold =>
      simp only [assembleSteps] at h
      obtain ⟨pre, hpre, hmem, hmap⟩ := ih _ _ _ hw h
      refine ⟨Block.unfold :: pre, by simp [hpre], by simpa using hmem, ?_⟩
      simp only [hmap]
      simp [isStepOpenerBlock]
    | outputSource =>
      simp only [assembleSteps] at h
      obtain ⟨pre, hpre, hmem, hmap⟩ := ih _ _ _ hw h
      refine ⟨Block.outputSource :: pre, by simp [hpre], by simpa using hmem, ?_⟩
      simp only [hmap]
      simp [isStepOpenerBlock]
    | endOptional =>
      simp only [assembleSteps] at h
      obtain ⟨pre, hpre, hmem, hmap⟩ := ih _ _ _ hw h
      refine ⟨Block.endOptional :: pre, by simp [hpre], by simpa using hmem, ?_⟩
      simp only [hmap]
      simp [isStepOpenerBlock]
    | filter p =>
      simp only [assembleSteps] at h
      cases hbuf : st.current_step_blocks with
      | none => rw [hbuf] at h; simp at h
      | some buf =>
        rw [hbuf] at h
        cases buf with
        | nil => rw [hbuf] at hw; exact hw.elim
        | cons b₀ bs₀ =>
          obtain ⟨pre, hpre, hmem, hmap⟩ := ih _ _ _ (by trivial) h
          refine ⟨Block.filter p :: pre, by simp [hpre], by simpa using hmem, ?_⟩
          simp only [hmap]
          simp [hbuf, bufferHeadBlocks, isStepOpenerBlock]
    | coerceType tc =>
      simp only [assembleSteps] at h
      cases hbuf : st.current_step_blocks with
      | none => rw [hbuf] at h; simp at h
      | some buf =>
        rw [hbuf] at h
        cases buf with
        | nil => rw [hbuf] at hw; exact hw.elim
        | cons b₀ bs₀ =>
          obtain ⟨pre, hpre, hmem, hmap⟩ := ih _ _ _ (by trivial) h
          refine ⟨Block.coerceType tc :: pre, by simp [hpre], by simpa using hmem, ?_⟩
          simp only [hmap]
          simp [hbuf, bufferHeadBlocks, isStepOpenerBlock]
    | fold l => simp [assembleSteps] at h
    | constructResult o => simp [assembleSteps] at h

/-- Splitting a list at the first occurrence of an element is unique. -/
lemma first_occurrence_split_unique {α : Type} (a : α) :
    ∀ (pre pre' post post' : List α),
      pre ++ a :: post = pre' ++ a :: post' → a ∉ pre → a ∉ pre' →
      pre = pre' ∧ post = post' := by
  intro pre
  induction pre with
  | nil =>
    intro pre' post post' heq hmem hmem'
    cases pre' with
    | nil => simpa using heq
    | cons b pb =>
      simp only [List.nil_append, List.cons_append, List.cons.injEq] at heq
      exact absurd (heq.1 ▸ List.mem_cons_self b pb) hmem'
  | cons c pc ih =>
    intro pre' post post' heq hmem hmem'
    cases pre' with
    | nil =>
      simp only [List.nil_append, List.cons_append, List.cons.injEq] at heq
      exact absurd (heq.1 ▸ List.mem_cons_self c pc) hmem
    | cons b pb =>
      simp only [List.cons_append, List.cons.injEq] at heq
      obtain ⟨hcb, htail⟩ := heq
      subst hcb
      obtain ⟨h1, h2⟩ := ih pb post post' htail
        (fun hx => hmem (List.mem_cons_of_mem _ hx))
        (fun hx => hmem' (List.mem_cons_of_mem _ hx))
      exact ⟨by rw [h1], h2⟩

/-- A successful `convert_to_cypher_query` call decomposes into a successful
main loop run whose trailing blocks have one of the two accepted global
operations shapes. -/
lemma convert_to_cypher_query_ok_elim {QMT : Type} (qmt : QMT)
    (extract : List Block → List (Nat × List Block) × List Block)
    (ir_blocks : List Block) (q : CypherQuery)
    (h : convert_to_cypher_query extract ir_blocks qmt = .ok q) :
    ∃ steps rest,
      assembleSteps qmt
        { steps := [], current_step_blocks := none,
          linked_location := none, next_linked_location := none }
        (extract ir_blocks).2 = .ok (steps, rest) ∧
      q.steps = steps ∧
      ((∃ p o, rest = [Block.filter p, Block.constructResult o]) ∨
       (∃ o, rest = [Block.constructResult o])) := by
  simp only [convert_to_cypher_query] at h
  rcases hex : extract ir_blocks with ⟨folds, remaining⟩
  rw [hex] at h
  cases ha : assembleSteps qmt
      { steps := [], current_step_blocks := none,
        linked_location := none, next_linked_location := none } remaining with
  | error e => rw [ha] at h; simp [bind, Except.bind] at h
  | ok pr =>
    rcases pr with ⟨steps, rest⟩
    rw [ha] at h
    simp only [bind, Except.bind] at h
    refine ⟨steps, rest, by simpa [hex] using ha, ?_, ?_⟩
    · split at h
      · next p o => simp only [Except.ok.injEq] at h; subst h; rfl
      · next o => simp only [Except.ok.injEq] at h; subst h; rfl
      · simp at h
    · split at h
      · next p o => exact Or.inl ⟨p, o, rfl⟩
      · next o => exact Or.inr ⟨o, rfl⟩
      · simp at h

/-- Every step appended by the main loop comes from `_make_cypher_step`; thus
any property guaranteed by successful step construction holds of all steps. -/
lemma assembleSteps_steps_forall {QMT : Type} (qmt : QMT) (Q : CypherStep → Prop)
    (hmk : ∀ loc buf s, _make_cypher_step qmt loc buf = .ok s → Q s) :
    ∀ (blocks : List Block) (st : AssemblyState) (steps : List CypherStep) (rest : List Block),
      assembleSteps qmt st blocks = .ok (steps, rest) →
      (∀ s, s ∈ st.steps → Q s) → ∀ s, s ∈ steps → Q s := by
  intro blocks
  induction blocks with
  | nil => intro st steps rest h hst; simp [assembleSteps] at h
  | cons b blocks ih =>
    intro st steps rest h hst
    cases b with
    | globalOperationsStart =>
      simp only [assembleSteps] at h
      cases hm : _make_cypher_step qmt st.linked_location st.current_step_blocks with
      | error e => rw [hm] at h; simp [bind, Except.bind] at h
      | ok s0 =>
        rw [hm] at h
        simp only [bind, Except.bind, Except.ok.injEq, Prod.mk.injEq] at h
        obtain ⟨hsteps, hrest⟩ := h
        subst hsteps
        intro s hs
        rcases List.mem_append.mp hs with hmem | hmem
        · exact hst s hmem
        · rcases List.mem_singleton.mp hmem with rfl
          exact hmk _ _ _ hm
    | queryRoot sc =>
      simp only [assembleSteps] at h
      cases hbuf : st.current_step_blocks with
      | some buf => rw [hbuf] at h; simp at h
      | none =>
        rw [hbuf] at h
        exact ih _ _ _ h hst
    | traverse dir en =>
      simp only [assembleSteps] at h
      cases hm : _make_cypher_step qmt st.linked_location st.current_step_blocks with
      | error e => rw [hm] at h; simp [bind, Except.bind] at h
      | ok s0 =>
        rw [hm] at h
        simp only [bind, Except.bind] at h
        refine ih _ _ _ h ?_
        intro s hs
        rcases List.mem_append.mp hs with hmem | hmem
        · exact hst s hmem
        · rcases List.mem_singleton.mp hmem with rfl
          exact hmk _ _ _ hm
    | recurse dir en d =>
      simp only [assembleSteps] at h
      cases hm : _make_cypher_step qmt st.linked_location st.current_step_blocks with
      | error e => rw [hm] at h; simp [bind, Except.bind] at h
      | ok s0 =>
        rw [hm] at h
        simp only [bind, Except.bind] at h
        refine ih _ _ _ h ?_
        intro s hs
        rcases List.mem_append.mp hs with hmem | hmem
        · exact hst s hmem
        · rcases List.mem_singleton.mp hmem with rfl
          exact hmk _ _ _ hm
    | markLocation loc =>
      simp only [assembleSteps] at h
      cases hbuf : st.current_step_blocks with
      | none => rw [hbuf] at h; simp at h
      | some buf =>
        rw [hbuf] at h
        exact ih _ _ _ h hst
    | backtrack loc =>
      simp only [assembleSteps] at h
      exact ih _ _ _ h hst
    | unfold =>
      simp only [assembleSteps] at h
      exact ih _ _ _ h hst
    | outputSource =>
      simp only [assembleSteps] at h
      exact ih _ _ _ h hst
    | endOptional =>
      simp only [assembleSteps] at h
      exact ih _ _ _ h hst
    | filter p =>
      simp only [assembleSteps] at h
      cases hbuf : st.current_step_blocks with
      | none => rw [hbuf] at h; simp at h
      | some buf =>
        rw [hbuf] at h
        exact ih _ _ _ h hst
    | coerceType tc =>
      simp only [assembleSteps] at h
      cases hbuf : st.current_step_blocks with
      | none => rw [hbuf] at h; simp at h
      | some buf =>
        rw [hbuf] at h
        exact ih _ _ _ h hst
    | fold l => simp [assembleSteps] at h
    | constructResult o => simp [assembleSteps] at h

/-- C2: for every well-formed IR stream (one that `convert_to_cypher_query`
accepts after fold extraction), the number of steps of the returned
`CypherQuery` equals the number of `QueryRoot`, `Traverse` and `Recurse`
blocks in the post-fold-extraction stream. -/
theorem c2_step_count_matches_opener_count {QMT : Type}
    (extract : List Block → List (Nat × List Block) × List Block)
    (ir_blocks : List Block) (qmt : QMT) (q : CypherQuery)
    (h : convert_to_cypher_query extract ir_blocks qmt = .ok q) :
    q.steps.length = (extract ir_blocks).2.countP isStepOpenerBlock := by
  obtain ⟨steps, rest, ha, hq, hshape⟩ :=
    convert_to_cypher_query_ok_elim qmt extract ir_blocks q h
  obtain ⟨pre, hpre, hmem, hmap⟩ := assembleSteps_ok_split qmt _ _ _ _ (by trivial) ha
  have hlen : steps.length = (pre.filter isStepOpenerBlock).length := by
    have hcl := congrArg List.length hmap
    simpa [bufferHeadBlocks] using hcl
  have hrest0 : rest.countP isStepOpenerBlock = 0 := by
    rcases hshape with ⟨p, o, rfl⟩ | ⟨o, rfl⟩ <;> simp [isStepOpenerBlock]
  rw [hq, hlen, hpre, List.countP_append, List.countP_cons, hrest0]
  have hgo : isStepOpenerBlock Block.globalOperationsStart = false := rfl
  rw [hgo]
  simp [List.countP_eq_length_filter]

/-- C2 witness: a concrete two-step stream. -/
theorem c2_step_count_matches_opener_count_witness :
    ∃ q, convert_to_cypher_query extractNoFolds irExample () = .ok q ∧
      q.steps.length = (extractNoFolds irExample).2.countP isStepOpenerBlock := by
  refine ⟨_, rfl, ?_⟩
  exact c2_step_count_matches_opener_count extractNoFolds irExample () _ rfl

/-- C4 counterexample: the claim asserts that the second step of the example
stream has `linked_location = None`; on the code the second step is linked to
location L1 (the location of the `MarkLocation` block that closed the first
step), so the claim is false. -/
theorem c4_linked_location_counterexample :
    ¬ (∀ q, convert_to_cypher_query extractNoFolds irExample () = .ok q →
          (q.steps[1]?).map CypherStep.linked_location = some none) := by
  intro hclaim
  exact absurd (hclaim _ rfl) (by decide)

/-- C4 (amended): on the example stream the assembler returns exactly two
steps; the second step has `where_block` equal to the `Filter` block,
`step_types = {Animal}`, and `linked_location = L1`: the location recorded by
the `MarkLocation` that closed the first step (there is no intervening
`Backtrack`, and `MarkLocation` also records a pending linked location). -/
theorem c4_example_steps_amended :
    convert_to_cypher_query extractNoFolds irExample () =
      .ok { steps :=
              [ { linked_location := none, step_block := Block.queryRoot ["Animal"],
                  step_types := ["Animal"], where_block := none,
                  as_block := Block.markLocation 1 },
                { linked_location := some 1, step_block := Block.traverse "out" "ParentOf",
                  step_types := ["Animal"], where_block := some (Block.filter 7),
                  as_block := Block.markLocation 2 } ],
            folds := [], global_where_block := none,
            output_block := Block.constructResult 0 } := by
  decide

/-- C5: if the post-fold-extraction stream lacks a `GlobalOperationsStart`
block, or the blocks after the first `GlobalOperationsStart` are not exactly
`[ConstructResult]` or `[Filter, ConstructResult]`, then
`convert_to_cypher_query` aborts with a fatal error and returns no result
(the `Except` result carries no partial query). -/
theorem c5_malformed_global_operations_error {QMT : Type}
    (extract : List Block → List (Nat × List Block) × List Block)
    (ir_blocks : List Block) (qmt : QMT) :
    (Block.globalOperationsStart ∉ (extract ir_blocks).2 →
       ∃ e, convert_to_cypher_query extract ir_blocks qmt = .error e) ∧
    (∀ pre post, (extract ir_blocks).2 = pre ++ Block.globalOperationsStart :: post →
       Block.globalOperationsStart ∉ pre →
       (∀ p o, post ≠ [Block.filter p, Block.constructResult o]) →
       (∀ o, post ≠ [Block.constructResult o]) →
       ∃ e, convert_to_cypher_query extract ir_blocks qmt = .error e) := by
  constructor
  · intro hno
    cases hc : convert_to_cypher_query extract ir_blocks qmt with
    | error e => exact ⟨e, rfl⟩
    | ok q =>
      obtain ⟨steps, rest, ha, hq, hshape⟩ :=
        convert_to_cypher_query_ok_elim qmt extract ir_blocks q hc
      obtain ⟨pre, hpre, hmem, hmap⟩ := assembleSteps_ok_split qmt _ _ _ _ (by trivial) ha
      rw [hpre] at hno
      exact absurd (List.mem_append.mpr (Or.inr (List.mem_cons_self _ _))) hno
  · intro pre post hsplit hmem hnf hnc
    cases hc : convert_to_cypher_query extract ir_blocks qmt with
    | error e => exact ⟨e, rfl⟩
    | ok q =>
      obtain ⟨steps, rest, ha, hq, hshape⟩ :=
        convert_to_cypher_query_ok_elim qmt extract ir_blocks q hc
      obtain ⟨pre', hpre', hmem', hmap⟩ := assembleSteps_ok_split qmt _ _ _ _ (by trivial) ha
      rw [hsplit] at hpre'
      obtain ⟨hpp, hrest⟩ :=
        first_occurrence_split_unique Block.globalOperationsStart pre pre' post rest
          hpre' hmem hmem'
      rcases hshape with ⟨p, o, hro⟩ | ⟨o, hro⟩
      · exact absurd (hrest.trans hro) (hnf p o)
      · exact absurd (hrest.trans hro) (hnc o)

/-- C5 witness: a stream with no `GlobalOperationsStart` and a stream with an
empty global operations section both abort. -/
theorem c5_malformed_global_operations_error_witness :
    (∃ e, convert_to_cypher_query extractNoFolds irNoGlobalOps () = .error e) ∧
    (∃ e, convert_to_cypher_query extractNoFolds irEmptyGlobalOps () = .error e) := by
  constructor
  · exact (c5_malformed_global_operations_error extractNoFolds irNoGlobalOps ()).1 (by decide)
  · exact (c5_malformed_global_operations_error extractNoFolds irEmptyGlobalOps ()).2
      [Block.queryRoot ["A"], Block.markLocation 1] [] rfl (by decide)
      (fun p o hcontra => by cases hcontra) (fun o hcontra => by cases hcontra)

/-- C6 counterexample: the claim's "if and only if" between step production
and the four accepted block-type shapes fails: a buffer
`[QueryRoot (with empty start-type collection), MarkLocation]` has an accepted
shape but produces no step — the singleton type extraction aborts instead. -/
theorem c6_shape_iff_counterexample :
    ¬ ((∃ s, _make_cypher_step () none
          (some [Block.queryRoot [], Block.markLocation 1]) = Except.ok s) ↔
        AllowedStepShape [Block.queryRoot [], Block.markLocation 1]) := by
  intro hiff
  obtain ⟨s, hs⟩ := hiff.mpr (Or.inl ⟨[], 1, rfl⟩)
  have hval : _make_cypher_step () none
      (some [Block.queryRoot [], Block.markLocation 1]) =
      Except.error MalformedIrError.notExactlyOneElement := by decide
  rw [hval] at hs
  exact Except.noConfusion hs

/-- C6 (amended): for a finished step buffer (which always opens with a
`QueryRoot`, `Traverse` or `Recurse` block), a step is produced if and only
if the buffer's block-type shape is one of the four accepted shapes AND the
`QueryRoot` start-type (resp. `CoerceType` target-type) collection contains
exactly one element; any other shape, or a non-singleton type collection,
aborts with a fatal error. -/
theorem c6_step_shape_amended {QMT : Type} (qmt : QMT) (loc : Option Nat)
    (b : Block) (bs : List Block)
    (hopen : isStepOpenerBlock b = true) :
    (∃ s, _make_cypher_step qmt loc (some (b :: bs)) = .ok s) ↔
      (AllowedStepShape (b :: bs) ∧
       ∃ t, stepTypesCollection (b :: bs) = some [t]) := by
  constructor
  · rintro ⟨s, hs⟩
    obtain ⟨b', bs', hbuf, hsb, hcases⟩ := make_cypher_step_ok_cases qmt loc _ s hs
    obtain ⟨hb, hbs⟩ : b = b' ∧ bs = bs' := by
      simpa [List.cons.injEq] using hbuf
    subst hb; subst hbs
    rcases hcases with ⟨sc, t, p, l, hb, hsc, hbs, _⟩ | ⟨sc, t, l, hb, hsc, hbs, _⟩ |
      ⟨tc, t, p, l, hroot, hbs, htc, _⟩ | ⟨tc, t, l, hroot, hbs, htc, _⟩
    · refine ⟨Or.inr (Or.inl ⟨sc, p, l, by rw [hb, hbs]⟩), t, ?_⟩
      rw [hb, hsc, hbs]
      rfl
    · refine ⟨Or.inl ⟨sc, l, by rw [hb, hbs]⟩, t, ?_⟩
      rw [hb, hsc, hbs]
      rfl
    · refine ⟨Or.inr (Or.inr (Or.inr ⟨b, tc, p, l, hopen, hroot, by rw [hbs]⟩)), t, ?_⟩
      rw [hbs, htc]
      cases b with
      | traverse dir en => rfl
      | recurse dir en d => rfl
      | queryRoot sc => simp [Block.isQueryRoot] at hroot
      | backtrack l2 => simp [isStepOpenerBlock] at hopen
      | markLocation l2 => simp [isStepOpenerBlock] at hopen
      | coerceType tc2 => simp [isStepOpenerBlock] at hopen
      | filter p2 => simp [isStepOpenerBlock] at hopen
      | fold l2 => simp [isStepOpenerBlock] at hopen
      | unfold => simp [isStepOpenerBlock] at hopen
      | outputSource => simp [isStepOpenerBlock] at hopen
      | endOptional => simp [isStepOpenerBlock] at hopen
      | globalOperationsStart => simp [isStepOpenerBlock] at hopen
      | constructResult o => simp [isStepOpenerBlock] at hopen
    · refine ⟨Or.inr (Or.inr (Or.inl ⟨b, tc, l, hopen, hroot, by rw [hbs]⟩)), t, ?_⟩
      rw [hbs, htc]
      cases b with
      | traverse dir en => rfl
      | recurse dir en d => rfl
      | queryRoot sc => simp [Block.isQueryRoot] at hroot
      | backtrack l2 => simp [isStepOpenerBlock] at hopen
      | markLocation l2 => simp [isStepOpenerBlock] at hopen
      | coerceType tc2 => simp [isStepOpenerBlock] at hopen
      | filter p2 => simp [isStepOpenerBlock] at hopen
      | fold l2 => simp [isStepOpenerBlock] at hopen
      | unfold => simp [isStepOpenerBlock] at hopen
      | outputSource => simp [isStepOpenerBlock] at hopen
      | endOptional => simp [isStepOpenerBlock] at hopen
      | globalOperationsStart => simp [isStepOpenerBlock] at hopen
      | constructResult o => simp [isStepOpenerBlock] at hopen
  · rintro ⟨hshape, t, ht⟩
    rcases hshape with ⟨sc, l, heq⟩ | ⟨sc, p, l, heq⟩ |
      ⟨b', tc, l, hop, hroot, heq⟩ | ⟨b', tc, p, l, hop, hroot, heq⟩
    · obtain ⟨hb, hbs⟩ : b = Block.queryRoot sc ∧ bs = [Block.markLocation l] := by
        simpa [List.cons.injEq] using heq
      subst hb; subst hbs
      obtain rfl : sc = [t] := by simpa [stepTypesCollection] using ht
      exact ⟨_, rfl⟩
    · obtain ⟨hb, hbs⟩ : b = Block.queryRoot sc ∧
          bs = [Block.filter p, Block.markLocation l] := by
        simpa [List.cons.injEq] using heq
      subst hb; subst hbs
      obtain rfl : sc = [t] := by simpa [stepTypesCollection] using ht
      exact ⟨_, rfl⟩
    · obtain ⟨hb, hbs⟩ : b = b' ∧ bs = [Block.coerceType tc, Block.markLocation l] := by
        simpa [List.cons.injEq] using heq
      subst hb; subst hbs
      cases b with
      | traverse dir en =>
        obtain rfl : tc = [t] := by simpa [stepTypesCollection] using ht
        exact ⟨_, rfl⟩
      | recurse dir en d =>
        obtain rfl : tc = [t] := by simpa [stepTypesCollection] using ht
        exact ⟨_, rfl⟩
      | queryRoot sc => simp [Block.isQueryRoot] at hroot
      | backtrack l2 => simp [isStepOpenerBlock] at hop
      | markLocation l2 => simp [isStepOpenerBlock] at hop
      | coerceType tc2 => simp [isStepOpenerBlock] at hop
      | filter p2 => simp [isStepOpenerBlock] at hop
      | fold l2 => simp [isStepOpenerBlock] at hop
      | unfold => simp [isStepOpenerBlock] at hop
      | outputSource => simp [isStepOpenerBlock] at hop
      | endOptional => simp [isStepOpenerBlock] at hop
      | globalOperationsStart => simp [isStepOpenerBlock] at hop
      | constructResult o => simp [isStepOpenerBlock] at hop
    · obtain ⟨hb, hbs⟩ : b = b' ∧
          bs = [Block.coerceType tc, Block.filter p, Block.markLocation l] := by
        simpa [List.cons.injEq] using heq
      subst hb; subst hbs
      cases b with
      | traverse dir en =>
        obtain rfl : tc = [t] := by simpa [stepTypesCollection] using ht
        exact ⟨_, rfl⟩
      | recurse dir en d =>
        obtain rfl : tc = [t] := by simpa [stepTypesCollection] using ht
        exact ⟨_, rfl⟩
      | queryRoot sc => simp [Block.isQueryRoot] at hroot
      | backtrack l2 => simp [isStepOpenerBlock] at hop
      | markLocation l2 => simp [isStepOpenerBlock] at hop
      | coerceType tc2 => simp [isStepOpenerBlock] at hop
      | filter p2 => simp [isStepOpenerBlock] at hop
      | fold l2 => simp [isStepOpenerBlock] at hop
      | unfold => simp [isStepOpenerBlock] at hop
      | outputSource => simp [isStepOpenerBlock] at hop
      | endOptional => simp [isStepOpenerBlock] at hop
      | globalOperationsStart => simp [isStepOpenerBlock] at hop
      | constructResult o => simp [isStepOpenerBlock] at hop

/-- C6 witness: a concrete subsequent-step buffer with a singleton coercion
type satisfies the amended equivalence. -/
theorem c6_step_shape_amended_witness :
    isStepOpenerBlock (Block.traverse "out" "E") = true ∧
    ((∃ s, _make_cypher_step () none
        (some [Block.traverse "out" "E", Block.coerceType ["T"], Block.markLocation 3]) =
          .ok s) ↔
      (AllowedStepShape
        [Block.traverse "out" "E", Block.coerceType ["T"], Block.markLocation 3] ∧
       ∃ t, stepTypesCollection
        [Block.traverse "out" "E", Block.coerceType ["T"], Block.markLocation 3] =
          some [t])) :=
  ⟨by decide,
   c6_step_shape_amended () none (Block.traverse "out" "E")
     [Block.coerceType ["T"], Block.markLocation 3] (by decide)⟩

/-- C10: the supertype-expansion hook is the identity on the exact type; a
step is produced only if the buffer's `QueryRoot` start-type collection
(resp. `CoerceType` target-type collection) is a singleton, in which case the
step's `step_types` is exactly that singleton; consequently every step of a
successfully converted query has singleton `step_types`. -/
theorem c10_singleton_step_types {QMT : Type} (qmt : QMT) :
    (∀ t, _get_all_supertypes_of_exact_type qmt t = [t]) ∧
    (∀ loc buf s, _make_cypher_step qmt loc buf = .ok s →
       ∃ b bs t, buf = some (b :: bs) ∧ s.step_types = [t] ∧
         ((∃ sc, b = Block.queryRoot sc ∧ sc = [t]) ∨
          (∃ tc rest2, bs = Block.coerceType tc :: rest2 ∧ tc = [t]))) ∧
    (∀ (extract : List Block → List (Nat × List Block) × List Block)
       (ir_blocks : List Block) (q : CypherQuery),
       convert_to_cypher_query extract ir_blocks qmt = .ok q →
       ∀ s ∈ q.steps, ∃ t, s.step_types = [t]) := by
  refine ⟨fun t => rfl, ?_, ?_⟩
  · intro loc buf s hs
    obtain ⟨b, bs, hbuf, hsb, hcases⟩ := make_cypher_step_ok_cases qmt loc buf s hs
    rcases hcases with ⟨sc, t, p, l, hb, hsc, hbs, hsv⟩ | ⟨sc, t, l, hb, hsc, hbs, hsv⟩ |
      ⟨tc, t, p, l, hroot, hbs, htc, hsv⟩ | ⟨tc, t, l, hroot, hbs, htc, hsv⟩
    · exact ⟨b, bs, t, hbuf, by rw [hsv], Or.inl ⟨sc, hb, hsc⟩⟩
    · exact ⟨b, bs, t, hbuf, by rw [hsv], Or.inl ⟨sc, hb, hsc⟩⟩
    · exact ⟨b, bs, t, hbuf, by rw [hsv],
        Or.inr ⟨tc, [Block.filter p, Block.markLocation l], hbs, htc⟩⟩
    · exact ⟨b, bs, t, hbuf, by rw [hsv],
        Or.inr ⟨tc, [Block.markLocation l], hbs, htc⟩⟩
  · intro extract ir_blocks q hq s hsmem
    obtain ⟨steps, rest, ha, hqs, hshape⟩ :=
      convert_to_cypher_query_ok_elim qmt extract ir_blocks q hq
    refine assembleSteps_steps_forall qmt (fun s => ∃ t, s.step_types = [t]) ?_
      (extract ir_blocks).2 _ steps rest ha (by simp) s (hqs ▸ hsmem)
    intro loc buf s' hs'
    obtain ⟨b, bs, hbuf, hsb, hcases⟩ := make_cypher_step_ok_cases qmt loc buf s' hs'
    rcases hcases with ⟨_, t, _, _, _, _, _, hsv⟩ | ⟨_, t, _, _, _, _, hsv⟩ |
      ⟨_, t, _, _, _, _, _, hsv⟩ | ⟨_, t, _, _, _, _, hsv⟩ <;>
      exact ⟨t, by rw [hsv]⟩

/-- C10 witness: every step of the converted example query has singleton
step types. -/
theorem c10_singleton_step_types_witness :
    ∃ q, convert_to_cypher_query extractNoFolds irExample () = .ok q ∧
      ∀ s ∈ q.steps, ∃ t, s.step_types = [t] := by
  refine ⟨_, rfl, ?_⟩
  exact (c10_singleton_step_types ()).2.2 extractNoFolds irExample _ rfl

/-- The third output column provides the row's value for its name when the
first two columns export different names. -/
lemma rowOfSelect_third (c1 c2 c3 c4 : Sql) (env : Nat → String → Val) (nm : String)
    (h1 : colName c1 ≠ some nm) (h2 : colName c2 ≠ some nm) (h3 : colName c3 = some nm) :
    rowOfSelect [c1, c2, c3, c4] env nm = evalSql env c3 := by
  unfold rowOfSelect
  simp [List.find?, h1, h2, h3]

/-- A true conjunction has both conjuncts true. -/
lemma evalSql_conj_true (env : Nat → String → Val) (a b : Sql)
    (h : evalBool env (Sql.conj a b) = true) :
    evalBool env a = true ∧ evalBool env b = true := by
  unfold evalBool at h ⊢
  unfold evalSql at h
  cases ha : evalSql env a with
  | i x =>
    cases hb : evalSql env b with
    | i y =>
      rw [ha, hb] at h
      simp only at h
      constructor <;> simp only [decide_eq_true_eq] at h ⊢
      · intro hx
        rw [hx] at h
        simp at h
      · intro hy
        rw [hy] at h
        simp at h
    | s str => rw [ha, hb] at h; simp at h
    | null => rw [ha, hb] at h; simp at h
  | s str =>
    cases hb : evalSql env b <;> rw [ha, hb] at h <;> simp at h
  | null =>
    cases hb : evalSql env b <;> rw [ha, hb] at h <;> simp at h

/-- A true integer comparison provides an integer operand below the bound. -/
lemma evalBool_lt_intlit (env : Nat → String → Val) (e1 : Sql) (d : Int)
    (h : evalBool env (Sql.ltE e1 (Sql.intlit d)) = true) :
    ∃ a, evalSql env e1 = Val.i a ∧ a < d := by
  unfold evalBool at h
  unfold evalSql at h
  cases ha : evalSql env e1 with
  | i x =>
    refine ⟨x, rfl, ?_⟩
    rw [ha] at h
    simp only [evalSql] at h
    by_contra hlt
    rw [if_neg hlt] at h
    simp at h
  | s str => rw [ha] at h; simp [evalSql] at h
  | null => rw [ha] at h; simp [evalSql] at h

/-- Depth bound for the emitted recursive clause: any anchor row carries
depth 0; any step row increments a previous depth that the where-guard
bounds strictly below the maximum; hence every emitted depth is at most the
maximum.  Stated over any anchor/step whose third output column and
where-clause have the emitted shapes. -/
lemma recCteRow_depth_le (cteId recTabId : Nat) (source_col sink_col : String)
    (d : Int) (a1 a2 p3 pp g2 : Sql) (anchorQ stepQ : Selectable)
    (hs : source_col ≠ "__depth_internal_name")
    (hk : sink_col ≠ "__depth_internal_name")
    (hd : 0 ≤ d)
    (hac : selectCols anchorQ =
      [Sql.labeled a1 source_col, Sql.labeled a2 sink_col,
       Sql.labeled (Sql.litcol "0") "__depth_internal_name", Sql.labeled p3 "path"])
    (hsc : selectCols stepQ =
      [Sql.col recTabId source_col, Sql.col cteId sink_col,
       Sql.labeled (Sql.plus (Sql.col cteId "__depth_internal_name") (Sql.intlit 1))
         "__depth_internal_name",
       Sql.labeled pp "path"])
    (hsw : selectWhere stepQ = some (Sql.conj
      (Sql.ltE (Sql.col cteId "__depth_internal_name") (Sql.intlit d)) g2)) :
    ∀ row, RecCteRow cteId anchorQ stepQ row →
      ∀ n, row "__depth_internal_name" = Val.i n → n ≤ d := by
  intro row hrow
  induction hrow with
  | anchor env hwhere =>
    intro n hn
    rw [hac] at hn
    rw [rowOfSelect_third _ _ _ _ _ _ (by simp [colName, hs]) (by simp [colName, hk])
      (by simp [colName])] at hn
    simp only [evalSql] at hn
    have h0 : parseIntLit "0" = some 0 := by decide
    rw [h0] at hn
    simp only [Val.i.injEq] at hn
    omega
  | step env prev hprev hbind hwhere ih =>
    intro n hn
    rw [hsc] at hn
    rw [rowOfSelect_third _ _ _ _ _ _ (by simp [colName, hs]) (by simp [colName, hk])
      (by simp [colName])] at hn
    have hw := hwhere _ hsw
    obtain ⟨hlt, hg2⟩ := evalSql_conj_true env _ _ hw
    obtain ⟨a, ha, had⟩ := evalBool_lt_intlit env _ _ hlt
    simp only [evalSql] at hn
    simp only [evalSql] at ha
    rw [ha] at hn
    simp only [evalSql, Val.i.injEq] at hn
    omega

/-- C1: for every node whose incoming block is a `Recurse` with maximum depth
d, a successful `_create_recursive_clause` builds exactly the anchor query
and recursive step described by the spec (constant-0 depth column, seeded
comma-delimited path, join on new sink = previous source, depth incremented,
cycle guard, depth guard strictly below d), combined by the backend's
combinator and joined onto the node; and (for non-shadowing edge columns and
d ≥ 0) no emitted row of the recursive CTE has depth greater than d. -/
theorem c1_create_recursive_clause_spec (compiler_metadata : CompilerMetadata)
    (st : NodeEmit) (out_link_column : Sql) (ctr : Nat) (direction : String)
    (depth : Int) (out : Sql) (st' : NodeEmit) (ctr' : Nat)
    (hblock : st.blockInfo = NodeBlock.recurse direction depth)
    (hok : _create_recursive_clause compiler_metadata st out_link_column ctr =
      .ok (out, st', ctr')) :
    RecursiveClauseSpec compiler_metadata st out_link_column direction depth out st' := by
  by_cases hcomb : cte_attributes.contains compiler_metadata.recursion_combinator = true
  · cases hedge : compiler_metadata.get_edge st.nid st.relation with
    | otherE =>
      simp only [_create_recursive_clause, hblock, hedge] at hok
      exact Except.noConfusion hok
    | basicE e =>
      by_cases hdir : direction = "in"
      · simp only [_create_recursive_clause, hblock, hedge, hdir, buildRecursiveClause,
          if_pos hcomb] at hok
        simp only [Except.ok.injEq, Prod.mk.injEq] at hok
        obtain ⟨hout, hst', hctr⟩ := hok
        refine ⟨ctr, ctr + 1, ctr + 2, ctr + 3, ctr + 4,
          e.source_col, e.sink_col, e.source_col,
          Selectable.tableAlias ctr st.relation, _, _,
          Or.inl ⟨e, hedge, rfl, by rw [if_pos hdir]; exact ⟨rfl, rfl⟩, rfl⟩,
          rfl, rfl, ?_, ?_, ?_, ?_, ?_, ?_, ?_, ?_⟩
        · rw [← hst']; simp [add_recursive_link_column]; try norm_num
        · rw [← hout]; try norm_num
        · rw [← hst', ← hout]; simp [add_recursive_link_column]; try norm_num
        · rw [← hst']; simp [add_recursive_link_column]
        · rw [← hst']; simp [add_recursive_link_column]
        · rw [← hst']; simp [add_recursive_link_column]
        · rw [← hst']; simp [add_recursive_link_column]
        · intro hs hk hd
          exact recCteRow_depth_le (ctr + 2) ctr e.sink_col e.source_col depth
            _ _ _ _ _ _ _ hs hk hd rfl rfl rfl
      · simp only [_create_recursive_clause, hblock, hedge, buildRecursiveClause,
          if_neg hdir, if_pos hcomb] at hok
        simp only [Except.ok.injEq, Prod.mk.injEq] at hok
        obtain ⟨hout, hst', hctr⟩ := hok
        refine ⟨ctr, ctr + 1, ctr + 2, ctr + 3, ctr + 4,
          e.source_col, e.source_col, e.sink_col,
          Selectable.tableAlias ctr st.relation, _, _,
          Or.inl ⟨e, hedge, rfl, by rw [if_neg hdir]; exact ⟨rfl, rfl⟩, rfl⟩,
          rfl, rfl, ?_, ?_, ?_, ?_, ?_, ?_, ?_, ?_⟩
        · rw [← hst']; simp [add_recursive_link_column]; try norm_num
        · rw [← hout]; try norm_num
        · rw [← hst', ← hout]; simp [add_recursive_link_column]; try norm_num
        · rw [← hst']; simp [add_recursive_link_column]
        · rw [← hst']; simp [add_recursive_link_column]
        · rw [← hst']; simp [add_recursive_link_column]
        · rw [← hst']; simp [add_recursive_link_column]
        · intro hs hk hd
          exact recCteRow_depth_le (ctr + 2) ctr e.source_col e.sink_col depth
            _ _ _ _ _ _ _ hs hk hd rfl rfl rfl
    | multiE j f =>
      by_cases hdir : direction = "in"
      · simp only [_create_recursive_clause, hblock, hedge, hdir, buildRecursiveClause,
          if_pos hcomb] at hok
        simp only [Except.ok.injEq, Prod.mk.injEq] at hok
        obtain ⟨hout, hst', hctr⟩ := hok
        refine ⟨ctr, ctr + 1, ctr + 2, ctr + 3, ctr + 4,
          j.source_col, j.sink_col, f.source_col,
          Selectable.tableByNameAlias ctr j.table_name, _, _,
          Or.inr ⟨j, f, hedge, rfl, by rw [if_pos hdir]; exact ⟨rfl, rfl⟩, rfl⟩,
          rfl, rfl, ?_, ?_, ?_, ?_, ?_, ?_, ?_, ?_⟩
        · rw [← hst']; simp [add_recursive_link_column]; try norm_num
        · rw [← hout]; try norm_num
        · rw [← hst', ← hout]; simp [add_recursive_link_column]; try norm_num
        · rw [← hst']; simp [add_recursive_link_column]
        · rw [← hst']; simp [add_recursive_link_column]
        · rw [← hst']; simp [add_recursive_link_column]
        · rw [← hst']; simp [add_recursive_link_column]
        · intro hs hk hd
          exact recCteRow_depth_le (ctr + 2) ctr j.sink_col f.source_col depth
            _ _ _ _ _ _ _ hs hk hd rfl rfl rfl
      · simp only [_create_recursive_clause, hblock, hedge, buildRecursiveClause,
          if_neg hdir, if_pos hcomb] at hok
        simp only [Except.ok.injEq, Prod.mk.injEq] at hok
        obtain ⟨hout, hst', hctr⟩ := hok
        refine ⟨ctr, ctr + 1, ctr + 2, ctr + 3, ctr + 4,
          j.source_col, f.source_col, j.sink_col,
          Selectable.tableByNameAlias ctr j.table_name, _, _,
          Or.inr ⟨j, f, hedge, rfl, by rw [if_neg hdir]; exact ⟨rfl, rfl⟩, rfl⟩,
          rfl, rfl, ?_, ?_, ?_, ?_, ?_, ?_, ?_, ?_⟩
        · rw [← hst']; simp [add_recursive_link_column]; try norm_num
        · rw [← hout]; try norm_num
        · rw [← hst', ← hout]; simp [add_recursive_link_column]; try norm_num
        · rw [← hst']; simp [add_recursive_link_column]
        · rw [← hst']; simp [add_recursive_link_column]
        · rw [← hst']; simp [add_recursive_link_column]
        · rw [← hst']; simp [add_recursive_link_column]
        · intro hs hk hd
          exact recCteRow_depth_le (ctr + 2) ctr f.source_col j.sink_col depth
            _ _ _ _ _ _ _ hs hk hd rfl rfl rfl
  · cases hedge : compiler_metadata.get_edge st.nid st.relation with
    | otherE =>
      simp only [_create_recursive_clause, hblock, hedge] at hok
      exact Except.noConfusion hok
    | basicE e =>
      simp only [_create_recursive_clause, hblock, hedge, buildRecursiveClause,
        if_neg hcomb] at hok
      exact Except.noConfusion hok
    | multiE j f =>
      simp only [_create_recursive_clause, hblock, hedge, buildRecursiveClause,
        if_neg hcomb] at hok
      exact Except.noConfusion hok

/-- C1 witness: a concrete recursion node with maximum depth 3 and a basic
out-edge, with non-shadowing column names. -/
theorem c1_create_recursive_clause_spec_witness :
    stW.blockInfo = NodeBlock.recurse "out" 3 ∧
    ∃ out st' ctr',
      _create_recursive_clause metaW stW (Sql.col 0 "parent_id") 10 =
        .ok (out, st', ctr') ∧
      RecursiveClauseSpec metaW stW (Sql.col 0 "parent_id") "out" 3 out st' := by
  refine ⟨rfl, _, _, _, rfl, ?_⟩
  exact c1_create_recursive_clause_spec metaW stW (Sql.col 0 "parent_id") 10 "out" 3
    _ _ _ rfl rfl

/-- C3: an ordinary child composes into the parent via a left outer join when
it is under an optional scope and via an inner join when it is not; two
otherwise-identical child states differing only in the optional flag yield
results differing exactly in the join kind of the added join. -/
theorem c3_join_kind_optional (compiler_metadata : CompilerMetadata)
    (node child_node : NodeEmit) (onclause : Sql)
    (h : compiler_metadata.get_on_clause_for_node child_node.nid = [onclause]) :
    (_join_to_node compiler_metadata node { child_node with in_optional := true }) =
      { node with from_clause :=
          Selectable.outerjoin node.from_clause child_node.from_clause onclause } ∧
    (_join_to_node compiler_metadata node { child_node with in_optional := false }) =
      { node with from_clause :=
          Selectable.join node.from_clause child_node.from_clause onclause } ∧
    (_join_to_node compiler_metadata node { child_node with in_optional := true }) =
      { (_join_to_node compiler_metadata node { child_node with in_optional := false })
          with from_clause :=
            Selectable.outerjoin node.from_clause child_node.from_clause onclause } := by
  refine ⟨?_, ?_, ?_⟩ <;> simp [_join_to_node, h]

/-- C3 witness: concrete parent and child states with one on-clause. -/
theorem c3_join_kind_optional_witness :
    metaW.get_on_clause_for_node childW.nid = [Sql.trueLit] ∧
    (_join_to_node metaW stW { childW with in_optional := true }) =
      { stW with from_clause :=
          Selectable.outerjoin stW.from_clause childW.from_clause Sql.trueLit } ∧
    (_join_to_node metaW stW { childW with in_optional := false }) =
      { stW with from_clause :=
          Selectable.join stW.from_clause childW.from_clause Sql.trueLit } :=
  ⟨rfl,
   (c3_join_kind_optional metaW stW childW Sql.trueLit rfl).1,
   (c3_join_kind_optional metaW stW childW Sql.trueLit rfl).2.1⟩

/-- C7 counterexample: the claim asserts a fatal error is raised if and only
if the combinator is not one of `UNION`/`UNION_ALL`; with the combinator set
to `alias` — a CTE attribute that is no set-combination operator — the
`hasattr` check passes, no error is raised and the emitter silently
proceeds, so the claimed equivalence is false at this input. -/
theorem c7_hasattr_counterexample :
    ¬ ((∃ e, _create_recursive_clause metaAlias stW (Sql.col 0 "parent_id") 0 =
          Except.error e) ↔
       ¬(metaAlias.recursion_combinator = "union" ∨
         metaAlias.recursion_combinator = "union_all")) := by
  intro hiff
  obtain ⟨e, he⟩ := hiff.mpr (by decide)
  obtain ⟨r, hr⟩ :
      ∃ r, _create_recursive_clause metaAlias stW (Sql.col 0 "parent_id") 0 =
        Except.ok r := ⟨_, rfl⟩
  rw [hr] at he
  exact Except.noConfusion he

/-- C7 (amended): the emitter checks `hasattr(recursive_cte, combinator)`:
for a recursion node with resolvable edge metadata, the clause is emitted
successfully if and only if the combinator names an attribute of the CTE
construct; otherwise the unsupported-combinator error is raised, before the
combined statement is produced and with no node-state change (the `Except`
error carries no clause).  `union` and `union_all` are attributes and are
accepted, but so are non-combinator attribute names such as `alias`, for
which no error is raised. -/
theorem c7_recursion_combinator_check (compiler_metadata : CompilerMetadata)
    (st : NodeEmit) (out_link_column : Sql) (ctr : Nat) (direction : String)
    (depth : Int)
    (hblock : st.blockInfo = NodeBlock.recurse direction depth)
    (hedge : compiler_metadata.get_edge st.nid st.relation ≠ Edge.otherE) :
    ((∃ r, _create_recursive_clause compiler_metadata st out_link_column ctr = .ok r) ↔
      cte_attributes.contains compiler_metadata.recursion_combinator = true) ∧
    (cte_attributes.contains compiler_metadata.recursion_combinator = false →
      _create_recursive_clause compiler_metadata st out_link_column ctr =
        .error (EmitError.unsupportedRecursionCombinator
          compiler_metadata.recursion_combinator)) ∧
    ("union" ∈ cte_attributes ∧ "union_all" ∈ cte_attributes ∧
     "alias" ∈ cte_attributes) := by
  cases hE : compiler_metadata.get_edge st.nid st.relation with
  | otherE => exact absurd hE hedge
  | basicE e =>
    refine ⟨⟨?_, ?_⟩, ?_, by decide⟩
    · rintro ⟨r, hr⟩
      by_contra hcomb
      simp only [_create_recursive_clause, hblock, hE, buildRecursiveClause,
        if_neg hcomb] at hr
      exact Except.noConfusion hr
    · intro hcomb
      cases hv : _create_recursive_clause compiler_metadata st out_link_column ctr with
      | ok r => exact ⟨r, rfl⟩
      | error err =>
        simp only [_create_recursive_clause, hblock, hE, buildRecursiveClause,
          if_pos hcomb] at hv
        exact Except.noConfusion hv
    · intro hfalse
      have hcomb :
          ¬(cte_attributes.contains compiler_metadata.recursion_combinator = true) := by
        rw [hfalse]; simp
      simp only [_create_recursive_clause, hblock, hE, buildRecursiveClause,
        if_neg hcomb]
  | multiE j f =>
    refine ⟨⟨?_, ?_⟩, ?_, by decide⟩
    · rintro ⟨r, hr⟩
      by_contra hcomb
      simp only [_create_recursive_clause, hblock, hE, buildRecursiveClause,
        if_neg hcomb] at hr
      exact Except.noConfusion hr
    · intro hcomb
      cases hv : _create_recursive_clause compiler_metadata st out_link_column ctr with
      | ok r => exact ⟨r, rfl⟩
      | error err =>
        simp only [_create_recursive_clause, hblock, hE, buildRecursiveClause,
          if_pos hcomb] at hv
        exact Except.noConfusion hv
    · intro hfalse
      have hcomb :
          ¬(cte_attributes.contains compiler_metadata.recursion_combinator = true) := by
        rw [hfalse]; simp
      simp only [_create_recursive_clause, hblock, hE, buildRecursiveClause,
        if_neg hcomb]

/-- C7 witness: the concrete recursion node with combinator `union`. -/
theorem c7_recursion_combinator_check_witness :
    ((∃ r, _create_recursive_clause metaW stW (Sql.col 0 "parent_id") 0 = .ok r) ↔
      cte_attributes.contains metaW.recursion_combinator = true) ∧
    (cte_attributes.contains metaW.recursion_combinator = false →
      _create_recursive_clause metaW stW (Sql.col 0 "parent_id") 0 =
        .error (EmitError.unsupportedRecursionCombinator metaW.recursion_combinator)) ∧
    ("union" ∈ cte_attributes ∧ "union_all" ∈ cte_attributes ∧
     "alias" ∈ cte_attributes) :=
  c7_recursion_combinator_check metaW stW (Sql.col 0 "parent_id") 0 "out" 3 rfl
    (by decide)

/-- C8: only a root invocation of `_query_tree_to_query` produces the
outward-facing statement, and that statement selects exactly the returned
node state's accumulated selections, distinct, from its accumulated
from-clause, with no where-clause at this final level; a non-root
(recursion-subtree) invocation returns only an out-column. -/
theorem c8_final_query_root_only (fuel : Nat) (compiler_metadata : CompilerMetadata)
    (node : SqlNode) (isRoot : Bool) (recursion_in_column : Option Sql) (ctr : Nat)
    (res : EmitResult) (st : NodeEmit) (ctr' : Nat)
    (h : _query_tree_to_query fuel compiler_metadata node isRoot recursion_in_column ctr =
      .ok (res, st, ctr')) :
    (isRoot = true → res = EmitResult.rootQuery (Selectable.selectQ
      (st.selections.map compiler_metadata.get_column_for_block) true
      (some st.from_clause) none)) ∧
    (isRoot = false → ∃ c, res = EmitResult.outColumn c) := by
  match fuel with
  | 0 =>
    simp only [_query_tree_to_query] at h
    exact Except.noConfusion h
  | fuel + 1 =>
    simp only [_query_tree_to_query, bind, Except.bind] at h
    cases hc : _collapse_query_tree fuel compiler_metadata node ctr with
    | error e => rw [hc] at h; exact Except.noConfusion h
    | ok p =>
      rcases p with ⟨st0, ctr₁⟩
      rw [hc] at h
      simp only at h
      cases hm : _maybe_create_recursive_clause compiler_metadata st0
          recursion_in_column ctr₁ with
      | error e => rw [hm] at h; exact Except.noConfusion h
      | ok q =>
        rcases q with ⟨oc, st₁, ctr₂⟩
        rw [hm] at h
        simp only at h
        cases ht : _traverse_recursion_list fuel compiler_metadata
            (_wrap_query_as_cte st₁ (_create_base_query compiler_metadata st₁) ctr₂).1
            (_wrap_query_as_cte st₁ (_create_base_query compiler_metadata st₁) ctr₂).1.recursions
            [] (_wrap_query_as_cte st₁ (_create_base_query compiler_metadata st₁) ctr₂).2 with
        | error e => rw [ht] at h; exact Except.noConfusion h
        | ok tr =>
          rcases tr with ⟨st₃, recursive_selections, ctr₄⟩
          rw [ht] at h
          simp only at h
          cases isRoot with
          | true =>
            rw [if_pos rfl] at h
            simp only [Except.ok.injEq, Prod.mk.injEq] at h
            obtain ⟨hres, hst, hctr⟩ := h
            subst hst
            refine ⟨fun _ => ?_, fun hfalse => Bool.noConfusion hfalse⟩
            rw [← hres]
            rfl
          | false =>
            rw [if_neg (by simp)] at h
            simp only [Except.ok.injEq, Prod.mk.injEq] at h
            obtain ⟨hres, hst, hctr⟩ := h
            exact ⟨fun htrue => Bool.noConfusion htrue, fun _ => ⟨oc, hres.symm⟩⟩

/-- C8 witness: a concrete one-node tree emitted from the root. -/
theorem c8_final_query_root_only_witness :
    ∃ res st ctr', _query_tree_to_query 3 metaW nodeW true none 0 = .ok (res, st, ctr') ∧
      res = EmitResult.rootQuery (Selectable.selectQ
        (st.selections.map metaW.get_column_for_block) true (some st.from_clause) none) := by
  refine ⟨_, _, _, rfl, ?_⟩
  exact (c8_final_query_root_only 3 metaW nodeW true none 0 _ _ _ rfl).1 rfl

/-- Creating a recursion link column leaves the selections unchanged. -/
lemma create_link_for_recursion_selections (compiler_metadata : CompilerMetadata)
    (st st' : NodeEmit) (r : SqlNode)
    (h : _create_link_for_recursion compiler_metadata st r = .ok st') :
    st'.selections = st.selections := by
  unfold _create_link_for_recursion at h
  cases he : compiler_metadata.get_edge st.nid r.relation <;> rw [he] at h
  · simp only [Except.ok.injEq] at h
    rw [← h]; rfl
  · simp only [Except.ok.injEq] at h
    rw [← h]; rfl
  · exact Except.noConfusion h

/-- Creating all recursion link columns leaves the selections unchanged. -/
lemma create_links_list_selections (compiler_metadata : CompilerMetadata) :
    ∀ (rs : List SqlNode) (st st' : NodeEmit),
      _create_links_list compiler_metadata st rs = .ok st' →
      st'.selections = st.selections := by
  intro rs
  induction rs with
  | nil =>
    intro st st' h
    simp only [_create_links_list, Except.ok.injEq] at h
    rw [h]
  | cons r rs ih =>
    intro st st' h
    simp only [_create_links_list, bind, Except.bind] at h
    cases hl : _create_link_for_recursion compiler_metadata st r with
    | error e => rw [hl] at h; exact Except.noConfusion h
    | ok st₁ =>
      rw [hl] at h
      rw [ih st₁ st' h, create_link_for_recursion_selections compiler_metadata st st₁ r hl]

/-- Joining a child changes only the from-clause, never the selections. -/
lemma join_to_node_selections (compiler_metadata : CompilerMetadata)
    (st ce : NodeEmit) :
    (_join_to_node compiler_metadata st ce).selections = st.selections := by
  unfold _join_to_node
  split <;> rfl

/-- Pulling up and joining children appends their selections in order. -/
lemma foldl_pull_join_selections (compiler_metadata : CompilerMetadata) :
    ∀ (ces : List NodeEmit) (st : NodeEmit),
      (ces.foldl
        (fun st ce => _join_to_node compiler_metadata (_pull_up_node_blocks st ce) ce)
        st).selections = st.selections ++ concatSelections ces := by
  intro ces
  induction ces with
  | nil => intro st; simp [concatSelections]
  | cons ce ces ih =>
    intro st
    rw [List.foldl_cons, ih]
    rw [join_to_node_selections]
    show (st.selections ++ ce.selections) ++ concatSelections ces = _
    rw [List.append_assoc]
    rfl

/-- Selection order is preserved end-to-end by the collapse: the collapsed
state's selection ids are the node's own followed by each child subtree's,
depth first, in insertion order. -/
lemma collapse_selection_order (fuel : Nat) :
    (∀ (compiler_metadata : CompilerMetadata) (node : SqlNode) (ctr : Nat)
       (st : NodeEmit) (ctr' : Nat),
      _collapse_query_tree fuel compiler_metadata node ctr = .ok (st, ctr') →
      st.selections.map Selection.sid = treeSelectionSids node) ∧
    (∀ (compiler_metadata : CompilerMetadata) (nodes : List SqlNode) (ctr : Nat)
       (es : List NodeEmit) (ctr' : Nat),
      _collapse_child_nodes fuel compiler_metadata nodes ctr = .ok (es, ctr') →
      (concatSelections es).map Selection.sid = treeSelectionSidsList nodes) := by
  induction fuel with
  | zero =>
    constructor
    · intro compiler_metadata node ctr st ctr' h
      simp only [_collapse_query_tree] at h
      exact Except.noConfusion h
    · intro compiler_metadata nodes ctr es ctr' h
      simp only [_collapse_child_nodes] at h
      exact Except.noConfusion h
  | succ fuel ih =>
    obtain ⟨ihc, ihl⟩ := ih
    constructor
    · intro compiler_metadata node ctr st ctr' h
      simp only [_collapse_query_tree, bind, Except.bind] at h
      cases hcn : _collapse_child_nodes fuel compiler_metadata node.children_nodes ctr with
      | error e => rw [hcn] at h; exact Except.noConfusion h
      | ok p =>
        rcases p with ⟨child_emits, ctr₁⟩
        rw [hcn] at h
        simp only at h
        cases hcl : _create_links_list compiler_metadata
            (_create_and_reference_table node ctr₁) node.recursions with
        | error e => rw [hcl] at h; exact Except.noConfusion h
        | ok st₁ =>
          rw [hcl] at h
          simp only [Except.ok.injEq, Prod.mk.injEq] at h
          obtain ⟨hst, hctr⟩ := h
          rw [← hst, foldl_pull_join_selections, List.map_append,
            create_links_list_selections compiler_metadata node.recursions _ st₁ hcl]
          have hsids : (_create_and_reference_table node ctr₁).selections.map Selection.sid
              = node.selections.map Selection.sid := by
            simp [_create_and_reference_table]
          rw [hsids, ihl compiler_metadata node.children_nodes ctr child_emits ctr₁ hcn]
          cases node with
          | mk nid block rel children recs sels preds opt =>
            simp [treeSelectionSids, SqlNode.selections, SqlNode.children_nodes]
    · intro compiler_metadata nodes ctr es ctr' h
      cases nodes with
      | nil =>
        simp only [_collapse_child_nodes, Except.ok.injEq, Prod.mk.injEq] at h
        rw [← h.1]
        rfl
      | cons n ns =>
        simp only [_collapse_child_nodes, bind, Except.bind] at h
        cases hc : _collapse_query_tree fuel compiler_metadata n ctr with
        | error e => rw [hc] at h; exact Except.noConfusion h
        | ok p =>
          rcases p with ⟨e, ctr₁⟩
          rw [hc] at h
          simp only at h
          cases hcs : _collapse_child_nodes fuel compiler_metadata ns ctr₁ with
          | error e2 => rw [hcs] at h; exact Except.noConfusion h
          | ok p2 =>
            rcases p2 with ⟨es2, ctr₂⟩
            rw [hcs] at h
            simp only [Except.ok.injEq, Prod.mk.injEq] at h
            obtain ⟨hes, hctr⟩ := h
            rw [← hes]
            show (e.selections ++ concatSelections es2).map Selection.sid = _
            rw [List.map_append, ihc compiler_metadata n ctr e ctr₁ hc,
              ihl compiler_metadata ns ctr₁ es2 ctr₂ hcs]
            rfl

/-- Folding inner joins of one relation appends one spine entry per clause. -/
lemma spine_foldl_join (c : Selectable) :
    ∀ (ocs : List Sql) (f : Selectable),
      joinRightSpine (ocs.foldl (fun f oc => Selectable.join f c oc) f) =
        joinRightSpine f ++ ocs.map (fun _ => c) := by
  intro ocs
  induction ocs with
  | nil => intro f; simp
  | cons o os ih =>
    intro f
    rw [List.foldl_cons, ih]
    simp [joinRightSpine]

/-- Folding outer joins of one relation appends one spine entry per clause. -/
lemma spine_foldl_outerjoin (c : Selectable) :
    ∀ (ocs : List Sql) (f : Selectable),
      joinRightSpine (ocs.foldl (fun f oc => Selectable.outerjoin f c oc) f) =
        joinRightSpine f ++ ocs.map (fun _ => c) := by
  intro ocs
  induction ocs with
  | nil => intro f; simp
  | cons o os ih =>
    intro f
    rw [List.foldl_cons, ih]
    simp [joinRightSpine]

/-- Joining a child appends its per-onclause joins to the join spine,
whichever join kind is used. -/
lemma join_to_node_spine (compiler_metadata : CompilerMetadata) (st ce : NodeEmit) :
    joinRightSpine ((_join_to_node compiler_metadata st ce).from_clause) =
      joinRightSpine st.from_clause ++
        (compiler_metadata.get_on_clause_for_node ce.nid).map (fun _ => ce.from_clause) := by
  simp only [_join_to_node]
  by_cases hopt : ce.in_optional
  · rw [if_pos hopt]
    exact spine_foldl_outerjoin ce.from_clause _ st.from_clause
  · rw [if_neg hopt]
    exact spine_foldl_join ce.from_clause _ st.from_clause

/-- Pulling up and joining children extends the join spine by each child's
per-onclause joins, in child order. -/
lemma foldl_pull_join_spine (compiler_metadata : CompilerMetadata) :
    ∀ (ces : List NodeEmit) (st : NodeEmit),
      joinRightSpine ((ces.foldl
        (fun st ce => _join_to_node compiler_metadata (_pull_up_node_blocks st ce) ce)
        st).from_clause) =
        joinRightSpine st.from_clause ++ childJoinOrder compiler_metadata ces := by
  intro ces
  induction ces with
  | nil => intro st; simp [childJoinOrder]
  | cons ce ces ih =>
    intro st
    rw [List.foldl_cons, ih, join_to_node_spine]
    show (joinRightSpine st.from_clause ++ _) ++ _ = _
    rw [List.append_assoc]
    rfl

/-- Joining a child never changes the node identity. -/
lemma join_to_node_nid (compiler_metadata : CompilerMetadata) (st ce : NodeEmit) :
    (_join_to_node compiler_metadata st ce).nid = st.nid := by
  simp only [_join_to_node]
  by_cases hopt : ce.in_optional
  · rw [if_pos hopt]
  · rw [if_neg hopt]

/-- Pulling up and joining children never changes the node identity. -/
lemma foldl_pull_join_nid (compiler_metadata : CompilerMetadata) :
    ∀ (ces : List NodeEmit) (st : NodeEmit),
      (ces.foldl
        (fun st ce => _join_to_node compiler_metadata (_pull_up_node_blocks st ce) ce)
        st).nid = st.nid := by
  intro ces
  induction ces with
  | nil => intro st; rfl
  | cons ce ces ih =>
    intro st
    rw [List.foldl_cons, ih, join_to_node_nid]
    rfl

/-- Creating a recursion link column changes neither the node identity nor
the from-clause. -/
lemma create_link_for_recursion_nid_from (compiler_metadata : CompilerMetadata)
    (st st' : NodeEmit) (r : SqlNode)
    (h : _create_link_for_recursion compiler_metadata st r = .ok st') :
    st'.nid = st.nid ∧ st'.from_clause = st.from_clause := by
  unfold _create_link_for_recursion at h
  cases he : compiler_metadata.get_edge st.nid r.relation <;> rw [he] at h
  · simp only [Except.ok.injEq] at h
    rw [← h]; exact ⟨rfl, rfl⟩
  · simp only [Except.ok.injEq] at h
    rw [← h]; exact ⟨rfl, rfl⟩
  · exact Except.noConfusion h

/-- Creating all recursion link columns changes neither the node identity nor
the from-clause. -/
lemma create_links_list_nid_from (compiler_metadata : CompilerMetadata) :
    ∀ (rs : List SqlNode) (st st' : NodeEmit),
      _create_links_list compiler_metadata st rs = .ok st' →
      st'.nid = st.nid ∧ st'.from_clause = st.from_clause := by
  intro rs
  induction rs with
  | nil =>
    intro st st' h
    simp only [_create_links_list, Except.ok.injEq] at h
    rw [h]; exact ⟨rfl, rfl⟩
  | cons r rs ih =>
    intro st st' h
    simp only [_create_links_list, bind, Except.bind] at h
    cases hl : _create_link_for_recursion compiler_metadata st r with
    | error e => rw [hl] at h; exact Except.noConfusion h
    | ok st₁ =>
      rw [hl] at h
      obtain ⟨hn1, hf1⟩ := create_link_for_recursion_nid_from compiler_metadata st st₁ r hl
      obtain ⟨hn2, hf2⟩ := ih st₁ st' h
      exact ⟨hn2.trans hn1, hf2.trans hf1⟩

/-- Join order is preserved end-to-end by the collapse: the collapsed state
keeps the node identity, the collapsed children correspond one-to-one in
order to the tree's children, and the accumulated from-clause is exactly a
spine of joins bringing in each collapsed child's from-clause, one join per
metadata on-clause, in the children's insertion order. -/
lemma collapse_join_order (fuel : Nat) :
    (∀ (compiler_metadata : CompilerMetadata) (node : SqlNode) (ctr : Nat)
       (st : NodeEmit) (ctr' : Nat),
      _collapse_query_tree fuel compiler_metadata node ctr = .ok (st, ctr') →
      st.nid = node.nid ∧
      ∃ fuel₀ ces ctr₁, fuel = fuel₀ + 1 ∧
        _collapse_child_nodes fuel₀ compiler_metadata node.children_nodes ctr =
          .ok (ces, ctr₁) ∧
        ces.map NodeEmit.nid = node.children_nodes.map SqlNode.nid ∧
        joinRightSpine st.from_clause = childJoinOrder compiler_metadata ces) ∧
    (∀ (compiler_metadata : CompilerMetadata) (nodes : List SqlNode) (ctr : Nat)
       (es : List NodeEmit) (ctr' : Nat),
      _collapse_child_nodes fuel compiler_metadata nodes ctr = .ok (es, ctr') →
      es.map NodeEmit.nid = nodes.map SqlNode.nid) := by
  induction fuel with
  | zero =>
    constructor
    · intro compiler_metadata node ctr st ctr' h
      simp only [_collapse_query_tree] at h
      exact Except.noConfusion h
    · intro compiler_metadata nodes ctr es ctr' h
      simp only [_collapse_child_nodes] at h
      exact Except.noConfusion h
  | succ fuel ih =>
    obtain ⟨ihc, ihl⟩ := ih
    constructor
    · intro compiler_metadata node ctr st ctr' h
      simp only [_collapse_query_tree, bind, Except.bind] at h
      cases hcn : _collapse_child_nodes fuel compiler_metadata node.children_nodes ctr with
      | error e => rw [hcn] at h; exact Except.noConfusion h
      | ok p =>
        rcases p with ⟨child_emits, ctr₁⟩
        rw [hcn] at h
        simp only at h
        cases hcl : _create_links_list compiler_metadata
            (_create_and_reference_table node ctr₁) node.recursions with
        | error e => rw [hcl] at h; exact Except.noConfusion h
        | ok st₁ =>
          rw [hcl] at h
          simp only [Except.ok.injEq, Prod.mk.injEq] at h
          obtain ⟨hst, hctr⟩ := h
          obtain ⟨hn1, hf1⟩ := create_links_list_nid_from compiler_metadata
            node.recursions _ st₁ hcl
          constructor
          · rw [← hst, foldl_pull_join_nid, hn1]
            rfl
          · refine ⟨fuel, child_emits, ctr₁, rfl, hcn,
              ihl compiler_metadata node.children_nodes ctr child_emits ctr₁ hcn, ?_⟩
            rw [← hst, foldl_pull_join_spine, hf1]
            show joinRightSpine (Selectable.tableAlias ctr₁ node.relation) ++ _ = _
            rfl
    · intro compiler_metadata nodes ctr es ctr' h
      cases nodes with
      | nil =>
        simp only [_collapse_child_nodes, Except.ok.injEq, Prod.mk.injEq] at h
        rw [← h.1]
        rfl
      | cons n ns =>
        simp only [_collapse_child_nodes, bind, Except.bind] at h
        cases hc : _collapse_query_tree fuel compiler_metadata n ctr with
        | error e => rw [hc] at h; exact Except.noConfusion h
        | ok p =>
          rcases p with ⟨e, ctr₁⟩
          rw [hc] at h
          simp only at h
          cases hcs : _collapse_child_nodes fuel compiler_metadata ns ctr₁ with
          | error e2 => rw [hcs] at h; exact Except.noConfusion h
          | ok p2 =>
            rcases p2 with ⟨es2, ctr₂⟩
            rw [hcs] at h
            simp only [Except.ok.injEq, Prod.mk.injEq] at h
            obtain ⟨hes, hctr⟩ := h
            rw [← hes]
            show e.nid :: es2.map NodeEmit.nid = n.nid :: ns.map SqlNode.nid
            rw [(ihc compiler_metadata n ctr e ctr₁ hc).1,
              ihl compiler_metadata ns ctr₁ es2 ctr₂ hcs]

/-- C9: both compilation functions are pure and deterministic — equal inputs
give structurally identical outputs — and the output order mirrors the input
insertion order: the step blocks of a converted query are exactly the
`QueryRoot`/`Traverse`/`Recurse` blocks of the post-fold-extraction stream in
input order, the collapsed selection ids are the tree's selections in
depth-first insertion order, and the collapsed from-clause's join spine
brings in the collapsed children (one join per metadata on-clause) in the
children's insertion order. -/
theorem c9_determinism_and_order {QMT : Type} :
    (∀ (extract : List Block → List (Nat × List Block) × List Block)
       (ir_blocks : List Block) (qmt : QMT),
      convert_to_cypher_query extract ir_blocks qmt =
        convert_to_cypher_query extract ir_blocks qmt) ∧
    (∀ (fuel : Nat) (tree : SqlNode) (compiler_metadata : CompilerMetadata),
      emit_code_from_ir fuel tree compiler_metadata =
        emit_code_from_ir fuel tree compiler_metadata) ∧
    (∀ (extract : List Block → List (Nat × List Block) × List Block)
       (ir_blocks : List Block) (qmt : QMT) (q : CypherQuery),
      convert_to_cypher_query extract ir_blocks qmt = .ok q →
      q.steps.map CypherStep.step_block =
        (extract ir_blocks).2.filter isStepOpenerBlock) ∧
    (∀ (fuel : Nat) (compiler_metadata : CompilerMetadata) (node : SqlNode)
       (ctr : Nat) (st : NodeEmit) (ctr' : Nat),
      _collapse_query_tree fuel compiler_metadata node ctr = .ok (st, ctr') →
      st.selections.map Selection.sid = treeSelectionSids node) ∧
    (∀ (fuel : Nat) (compiler_metadata : CompilerMetadata) (node : SqlNode)
       (ctr : Nat) (st : NodeEmit) (ctr' : Nat),
      _collapse_query_tree fuel compiler_metadata node ctr = .ok (st, ctr') →
      ∃ fuel₀ ces ctr₁, fuel = fuel₀ + 1 ∧
        _collapse_child_nodes fuel₀ compiler_metadata node.children_nodes ctr =
          .ok (ces, ctr₁) ∧
        ces.map NodeEmit.nid = node.children_nodes.map SqlNode.nid ∧
        joinRightSpine st.from_clause = childJoinOrder compiler_metadata ces) := by
  refine ⟨fun _ _ _ => rfl, fun _ _ _ => rfl, ?_, ?_, ?_⟩
  · intro extract ir_blocks qmt q h
    obtain ⟨steps, rest, ha, hq, hshape⟩ :=
      convert_to_cypher_query_ok_elim qmt extract ir_blocks q h
    obtain ⟨pre, hpre, hmem, hmap⟩ := assembleSteps_ok_split qmt _ _ _ _ (by trivial) ha
    have hrest : rest.filter isStepOpenerBlock = [] := by
      rcases hshape with ⟨p, o, rfl⟩ | ⟨o, rfl⟩ <;> simp [isStepOpenerBlock]
    rw [hq, hpre, List.filter_append, List.filter_cons]
    have hgo : isStepOpenerBlock Block.globalOperationsStart = false := rfl
    rw [hgo]
    simp only [Bool.false_eq_true, if_false, hrest, List.append_nil]
    simpa using hmap
  · intro fuel compiler_metadata node ctr st ctr' h
    exact (collapse_selection_order fuel).1 compiler_metadata node ctr st ctr' h
  · intro fuel compiler_metadata node ctr st ctr' h
    exact ((collapse_join_order fuel).1 compiler_metadata node ctr st ctr' h).2

/-- C9 witness: concrete runs of both compilers, with the order properties
instantiated on a concrete stream and a concrete two-node tree. -/
theorem c9_determinism_and_order_witness :
    (convert_to_cypher_query extractNoFolds irExample () =
      convert_to_cypher_query extractNoFolds irExample ()) ∧
    (emit_code_from_ir 4 nodeW2 metaW = emit_code_from_ir 4 nodeW2 metaW) ∧
    (∃ q, convert_to_cypher_query extractNoFolds irExample () = .ok q ∧
      q.steps.map CypherStep.step_block =
        (extractNoFolds irExample).2.filter isStepOpenerBlock) ∧
    (∃ st ctr', _collapse_query_tree 4 metaW nodeW2 0 = .ok (st, ctr') ∧
      st.selections.map Selection.sid = treeSelectionSids nodeW2) ∧
    (∃ st ctr', _collapse_query_tree 4 metaW nodeW2 0 = .ok (st, ctr') ∧
      ∃ fuel₀ ces ctr₁, 4 = fuel₀ + 1 ∧
        _collapse_child_nodes fuel₀ metaW nodeW2.children_nodes 0 = .ok (ces, ctr₁) ∧
        ces.map NodeEmit.nid = nodeW2.children_nodes.map SqlNode.nid ∧
        joinRightSpine st.from_clause = childJoinOrder metaW ces) := by
  refine ⟨(@c9_determinism_and_order Unit).1 extractNoFolds irExample (),
    (@c9_determinism_and_order Unit).2.1 4 nodeW2 metaW, ?_, ?_, ?_⟩
  · refine ⟨_, rfl, ?_⟩
    exact (@c9_determinism_and_order Unit).2.2.1 extractNoFolds irExample () _ rfl
  · refine ⟨_, _, rfl, ?_⟩
    exact (@c9_determinism_and_order Unit).2.2.2.1 4 metaW nodeW2 0 _ _ rfl
  · refine ⟨_, _, rfl, ?_⟩
    exact (@c9_determinism_and_order Unit).2.2.2.2 4 metaW nodeW2 0 _ _ rfl
